import Mathlib

set_option autoImplicit false

/-!
Verification development for the nojs UI reconciliation engine.

The vdom layer (tree model, materializer `createElement`, diff engine
`patchElement` / `patchAttributes` / `patchChildren`) is embedded from the
current renderer in the repository's vdom package (the first, later version
of the two historical copies present in the source: the one that supports
the "#text" sentinel, guards text-content mutation behind a no-children
check, and re-attaches event listeners on every patch pass).

The runtime layer (RendererImpl: RenderRoot, RenderChild,
cleanupUnmountedComponents, ReRenderSlot) is embedded from
nojs/runtime/renderer_impl.go as an explicit state-passing model emitting a
trace of lifecycle / DOM events.

Go `map[string]T` values are embedded as association lists with unique keys;
Go map iteration order is arbitrary, so every theorem below about map
iteration is order-insensitive (membership / count statements).
-/

namespace Nojs

/-- Attribute values stored in a VNode attribute map (`map[string]any` in the
source).  The source stores strings, booleans, DOM event handlers of type
`func(js.Value)` (modelled as `handler` with an identity token, since Go
function values admit no equality) and, for the `NewVNode` constructor, plain
`func()` callbacks (modelled as `fn0`). -/
inductive AttrVal where
  | str (s : String)
  | boolean (b : Bool)
  | handler (id : Nat)
  | fn0 (id : Nat)
deriving DecidableEq, Repr

abbrev AttrMap := List (String × AttrVal)

/-- First-match association lookup; embeds Go map indexing (`m[k]`),
returning `none` where Go returns the zero value with `ok = false`. -/
def assocFind {κ ν : Type} [DecidableEq κ] (m : List (κ × ν)) (k : κ) : Option ν :=
  match m with
  | [] => none
  | p :: rest => if p.1 = k then some p.2 else assocFind rest k

/-- Map update: replace the value when the key is present, append otherwise.
Embeds Go map assignment `m[k] = v`. -/
def assocSet {κ ν : Type} [DecidableEq κ] (m : List (κ × ν)) (k : κ) (v : ν) :
    List (κ × ν) :=
  if (assocFind m k).isSome then
    m.map (fun p => if p.1 = k then (k, v) else p)
  else m ++ [(k, v)]

/-- A key list has pairwise distinct keys (the invariant of any list embedding
a Go map). -/
def nodupKeys {κ ν : Type} (m : List (κ × ν)) : Prop := (m.map Prod.fst).Nodup

instance {κ ν : Type} [DecidableEq κ] (m : List (κ × ν)) : Decidable (nodupKeys m) := by
  unfold nodupKeys; infer_instance

/-- Event-attribute test from the source: `len(key) > 2 && key[0] == 'o' &&
key[1] == 'n'`. -/
def isEventKey (k : String) : Bool :=
  match k.data with
  | 'o' :: 'n' :: _ :: _ => true
  | _ => false

/-- DOM event name derived from an event attribute key: drop the leading
"on" and lower the first character when it is an ASCII capital
(`eventName[0] + ('a' - 'A')` in the source). -/
def eventName (k : String) : String :=
  match (k.drop 2).data with
  | [] => ""
  | c :: rest =>
      String.mk ((if 'A' ≤ c ∧ c ≤ 'Z' then Char.ofNat (c.toNat + 32) else c) :: rest)

/-- Native mutations performed on a single DOM element by the attribute /
listener code: `removeAttribute`, `setAttribute`, `addEventListener`. -/
inductive AttrOp where
  | removeAttr (key : String)
  | setAttr (key : String) (val : AttrVal)
  | addListener (event : String) (id : Nat)
deriving DecidableEq, Repr

/-- Embeds `setAttributeValue`: booleans set the attribute to the empty
string when true and perform no native call when false; `func(js.Value)`
handler values are skipped (attached separately); all other values are set
directly. -/
def setAttributeValue (key : String) (value : AttrVal) : List AttrOp :=
  match value with
  | .boolean b => if b then [.setAttr key (.str "")] else []
  | .handler _ => []
  | .str s => [.setAttr key (.str s)]
  | .fn0 i => [.setAttr key (.fn0 i)]

/-- Embeds `attachEventListeners`: for every attribute whose key passes
`isEventKey` and whose value is a `func(js.Value)` handler, attach a listener
under the derived event name. -/
def attachEventListeners (attrs : AttrMap) : List AttrOp :=
  attrs.filterMap (fun p =>
    match p.2, isEventKey p.1 with
    | .handler id, true => some (.addListener (eventName p.1) id)
    | _, _ => none)

/-- Removal loop of `patchAttributes`: every key present in the old map and
absent from the new map is removed, unless it passes the event-key test. -/
def removalOps (oldAttrs newAttrs : AttrMap) : List AttrOp :=
  oldAttrs.filterMap (fun p =>
    if (assocFind newAttrs p.1).isSome then none
    else if isEventKey p.1 then none
    else some (.removeAttr p.1))

/-- Set loop of `patchAttributes`: every non-event key of the new map whose
value differs from the old map's value (or is absent there) goes through
`setAttributeValue`. -/
def setOps (oldAttrs newAttrs : AttrMap) : List AttrOp :=
  newAttrs.foldr (fun p acc =>
    (if isEventKey p.1 then []
     else if assocFind oldAttrs p.1 = some p.2 then []
     else setAttributeValue p.1 p.2) ++ acc) []

/-- Embeds `patchAttributes`: the removal loop followed by the set loop. -/
def patchAttributes (oldAttrs newAttrs : AttrMap) : List AttrOp :=
  removalOps oldAttrs newAttrs ++ setOps oldAttrs newAttrs

/-- Embeds `vdom.VNode`: tag, attribute map, children, text content, the
optional legacy `OnClick func()` callback (identity token) and the
`ComponentKey` stamped by the root renderer.  The unused reconciliation
`Key` field and the WASM-only callback bookkeeping are omitted (no claim
touches them). -/
inductive VNode where
  | mk (tag : String) (attrs : AttrMap) (children : List VNode)
       (content : String) (onClick : Option Nat) (componentKey : String)

def VNode.tag : VNode → String
  | .mk t _ _ _ _ _ => t

def VNode.attrs : VNode → AttrMap
  | .mk _ a _ _ _ _ => a

def VNode.children : VNode → List VNode
  | .mk _ _ cs _ _ _ => cs

def VNode.content : VNode → String
  | .mk _ _ _ c _ _ => c

def VNode.onClick : VNode → Option Nat
  | .mk _ _ _ _ oc _ => oc

def VNode.componentKey : VNode → String
  | .mk _ _ _ _ _ k => k

/-- A native render-target node: either an element (persistent attribute
set, attached listeners, live `value` property, `textContent`, focus state
and child nodes) or a DOM text node. -/
inductive DNode where
  | elem (tag : String) (attrs : AttrMap) (listeners : List (String × Nat))
         (value : String) (text : String) (focused : Bool) (children : List DNode)
  | textNode (s : String)

def DNode.value : DNode → String
  | .elem _ _ _ v _ _ _ => v
  | .textNode _ => ""

def DNode.textContent : DNode → String
  | .elem _ _ _ _ t _ _ => t
  | .textNode s => s

def DNode.focused : DNode → Bool
  | .elem _ _ _ _ _ f _ => f
  | .textNode _ => false

def DNode.childrenOf : DNode → List DNode
  | .elem _ _ _ _ _ _ cs => cs
  | .textNode _ => []

def DNode.attrsOf : DNode → AttrMap
  | .elem _ a _ _ _ _ _ => a
  | .textNode _ => []

def DNode.listenersOf : DNode → List (String × Nat)
  | .elem _ _ l _ _ _ _ => l
  | .textNode _ => []

/-- Native `el.value = s`.  Setting the property on a text node has no
rendered meaning and is modelled as a no-op. -/
def DNode.setValue : DNode → String → DNode
  | .elem t a l _ tx f cs, v => .elem t a l v tx f cs
  | .textNode s, _ => .textNode s

/-- Native `el.textContent = s`: on an element this replaces the rendered
text and erases every child native node; on a text node it replaces the
text. -/
def DNode.setTextContent : DNode → String → DNode
  | .elem t a l v _ f _, s => .elem t a l v s f []
  | .textNode _, s => .textNode s

def DNode.withChildren : DNode → List DNode → DNode
  | .elem t a l v tx f _, cs => .elem t a l v tx f cs
  | .textNode s, _ => .textNode s

/-- Applies one native attribute/listener call to an element.  Calls
landing on a text node are modelled as no-ops (the engine only emits them
with empty attribute maps there). -/
def applyAttrOp : DNode → AttrOp → DNode
  | .elem t a l v tx f cs, .removeAttr k => .elem t (a.filter (fun p => p.1 != k)) l v tx f cs
  | .elem t a l v tx f cs, .setAttr k w => .elem t (assocSet a k w) l v tx f cs
  | .elem t a l v tx f cs, .addListener e i => .elem t a (l ++ [(e, i)]) v tx f cs
  | .textNode s, _ => .textNode s

def applyAttrOps (d : DNode) (ops : List AttrOp) : DNode :=
  ops.foldl applyAttrOp d

/-- A freshly created element (`document.createElement(tag)`). -/
def newElem (tag : String) : DNode := .elem tag [] [] "" "" false []

/-- The attribute/listener setup every `createElement` case performs: run
`setAttributeValue` for each entry, then `attachEventListeners`. -/
def applyAttrsTo (d : DNode) (attrs : AttrMap) : DNode :=
  applyAttrOps d
    ((attrs.foldr (fun p acc => setAttributeValue p.1 p.2 ++ acc) []) ++
      attachEventListeners attrs)

def setTextIf (d : DNode) (c : String) : DNode :=
  if c = "" then d else d.setTextContent c

def setValueIf (d : DNode) (c : String) : DNode :=
  if c = "" then d else d.setValue c

def appendChildren (d : DNode) (cs : List DNode) : DNode :=
  d.withChildren (d.childrenOf ++ cs)

def addListenerTo (d : DNode) (ev : String) (i : Nat) : DNode :=
  applyAttrOp d (.addListener ev i)

mutual

/-- Embeds `createElement` (the current version's tag switch): returns
`none` where the source returns `js.Undefined()` (empty text nodes and
unsupported tags), which callers test with `Truthy()`. -/
def createElement : VNode → Option DNode
  | .mk tag attrs children content onClick _ =>
    match tag with
    | "#text" => if content = "" then none else some (.textNode content)
    | "p" => some (applyAttrsTo (setTextIf (newElem "p") content) attrs)
    | "div" =>
        some (appendChildren (setTextIf (applyAttrsTo (newElem "div") attrs) content)
          (createChildren children))
    | "input" => some (setValueIf (applyAttrsTo (newElem "input") attrs) content)
    | "button" =>
        let e := applyAttrsTo (newElem "button") attrs
        let e := if content = "" then appendChildren e (createChildren children)
                 else e.setTextContent content
        some (match onClick with
              | some i => addListenerTo e "click" i
              | none => e)
    | "h1" | "h2" | "h3" | "h4" | "h5" | "h6" | "li"
    | "a" | "nav" | "span" | "section" | "article"
    | "header" | "footer" | "main" | "aside" =>
        some (appendChildren (setTextIf (applyAttrsTo (newElem tag) attrs) content)
          (createChildren children))
    | "ul" | "ol" | "select" | "form" =>
        some (appendChildren (applyAttrsTo (newElem tag) attrs) (createChildren children))
    | "option" => some (setTextIf (applyAttrsTo (newElem "option") attrs) content)
    | "textarea" => some (setValueIf (applyAttrsTo (newElem "textarea") attrs) content)
    | _ => none

/-- Child materialization loop: children whose `createElement` is not
truthy are skipped, the rest are appended in order. -/
def createChildren : List VNode → List DNode
  | [] => []
  | c :: cs =>
    match createElement c with
    | some e => e :: createChildren cs
    | none => createChildren cs

end

/-- Backward removal loop of `patchChildren` (`for i := oldLen - 1; i >=
newLen; i--`), expressed by its iteration count: the call with count `k`
removes indices `newLen + k - 1` down to `newLen`.  `List.eraseIdx` past the
end is the identity, matching the `item(i)` truthiness guard. -/
def removeLoop (l : List DNode) (newLen : Nat) : Nat → List DNode
  | 0 => l
  | k + 1 => removeLoop (l.eraseIdx (newLen + k)) newLen k

mutual

/-- Embeds `patchElement` (current version).  Different tags: materialize
the new tree and substitute it for the native node (keeping the native node
when materialization is not truthy, since no `replaceChild` happens then).
Same tag: patch attributes, re-attach event listeners, run the
element-class-specific content step, then reconcile children in place. -/
def patchElement (d : DNode) (o n : VNode) : DNode :=
  match o, n with
  | .mk ot oat och oc _ _, .mk nt nat nch nc noc nck =>
    if ot ≠ nt then
      match createElement (.mk nt nat nch nc noc nck) with
      | some e => e
      | none => d
    else
      let d1 := applyAttrOps d (patchAttributes oat nat)
      let d2 := applyAttrOps d1 (attachEventListeners nat)
      let d3 :=
        if nt = "input" ∨ nt = "textarea" then
          if d2.focused = false ∧ nc ≠ "" then
            (if d2.value ≠ nc then d2.setValue nc else d2)
          else d2
        else if nt = "select" then
          (if nc ≠ "" then d2.setValue nc else d2)
        else
          (if nch.length = 0 ∧ oc ≠ nc then d2.setTextContent nc else d2)
      let kids := patchZip d3.childrenOf och nch
      let kids :=
        if nch.length > och.length then
          kids ++ (nch.drop och.length).filterMap createElement
        else kids
      let kids :=
        if och.length > nch.length then
          removeLoop kids nch.length (och.length - nch.length)
        else kids
      d3.withChildren kids

/-- Positional reconciliation loop of `patchChildren`: the native child at
each index below `min` of the lengths is patched against the old/new pair at
that index; native children beyond either virtual list are left as they
are (the `item(i)` truthiness guard skips missing ones). -/
def patchZip : List DNode → List VNode → List VNode → List DNode
  | d :: ds, o :: os, nn :: ns => patchElement d o nn :: patchZip ds os ns
  | ds, _, _ => ds

end

/-- Embeds `patchChildren` as a standalone function on the native child
list: positional patching of the shared prefix, then tail appends of
materialized surplus children, then the backward tail-removal loop. -/
def patchChildren (doms : List DNode) (olds news : List VNode) : List DNode :=
  let l1 := patchZip doms olds news
  let l2 :=
    if news.length > olds.length then
      l1 ++ (news.drop olds.length).filterMap createElement
    else l1
  if olds.length > news.length then
    removeLoop l2 news.length (olds.length - news.length)
  else l2

/-- The attribute calls of an op list that target the attribute named `k`
(listener attachments target events, not attributes, and are excluded). -/
def attrOpsOn (ops : List AttrOp) (k : String) : List AttrOp :=
  ops.filter (fun op =>
    match op with
    | .removeAttr k2 => k2 == k
    | .setAttr k2 _ => k2 == k
    | .addListener _ _ => false)

/-- The listener attachments of an op list, as (event, handler) pairs. -/
def listenerAdds (ops : List AttrOp) : List (String × Nat) :=
  ops.filterMap (fun op =>
    match op with
    | .addListener e i => some (e, i)
    | _ => none)

/-- Embeds `vdom.NewVNode`: when the attribute map carries an "onClick"
entry whose value has Go type `func()`, the callback moves to the node's
`OnClick` field and the entry is deleted from the map (the node's attribute
map is that same, now-deleted map); any other value type leaves the map
untouched and `OnClick` nil.  `ComponentKey` starts as the zero string. -/
def NewVNode (tag : String) (attributes : AttrMap) (children : List VNode)
    (content : String) : VNode :=
  match assocFind attributes "onClick" with
  | some (.fn0 i) =>
      .mk tag (attributes.filter (fun p => p.1 != "onClick")) children content (some i) ""
  | _ => .mk tag attributes children content none ""

/-- A component instance, identified by its Go pointer (`id`) and its
dynamically tested capability set (`Mountable`, `ParameterReceiver`,
`Unmountable`, `PropUpdater`).  Equality of `Comp` values models Go pointer
identity of instances. -/
structure Comp where
  id : Nat
  mountable : Bool
  paramReceiver : Bool
  unmountable : Bool
  propUpdater : Bool
deriving DecidableEq, Repr

/-- Observable events of a render pass: lifecycle hook invocations
(carrying the target instance's identity and its registry key), prop
copying, render-function calls, and the three DOM-phase outcomes of the
root pass (`vdom.Clear`, `vdom.RenderToSelector`, `vdom.Patch`). -/
inductive REvent where
  | mountCall (id : Nat) (key : String)
  | paramsCall (id : Nat) (key : String)
  | applyPropsCall (target cand : Nat)
  | renderCall (id : Nat)
  | unmountCall (id : Nat) (key : String)
  | clearMount
  | renderFresh
  | patchDom
deriving DecidableEq, Repr

/-- The mutable fields of `RendererImpl` that the claims touch.  The
rendering stack is passed explicitly to `renderChild` (its top is the head
of the list here; in the source the top is the last slice element), and the
per-instance VDOM cache is keyed by instance identity. -/
structure RState where
  instances : List (String × Comp)
  initialized : List String
  activeKeys : List String
  currentComponent : Option Comp
  currentKey : String
  prevVDOM : Option VNode
  vdomCache : List (Nat × VNode)

/-- Set insertion for the string sets (`map[string]bool`) of the state. -/
def insertKey (l : List String) (k : String) : List String :=
  if l.contains k then l else l ++ [k]

/-- Stamps `newVDOM.ComponentKey = r.currentKey`. -/
def setComponentKey : VNode → String → VNode
  | .mk t a c ct oc _, k => .mk t a c ct oc k

/-- Run-time faults of the root pass: dereferencing a nil root component
(`r.currentComponent.Render` with no root set), or stamping the component
key on a nil render result. -/
inductive GoPanic where
  | nilRootRender
  | nilVNodeKeyStamp
deriving DecidableEq, Repr

/-- Embeds `cleanupUnmountedComponents`: every registered key not marked
active receives an unmount call when its instance supports one, and its
instance and initialization entries are purged; `activeKeys` is reset.  Go
map iteration order is arbitrary, so only the membership and count of the
emitted events are meaningful. -/
def cleanup (s : RState) : RState × List REvent :=
  let staleKeys := (s.instances.filter (fun p => !(s.activeKeys.contains p.1))).map Prod.fst
  let evs := (s.instances.filter (fun p => !(s.activeKeys.contains p.1))).filterMap
      (fun p => if p.2.unmountable then some (REvent.unmountCall p.2.id p.1) else none)
  ({ s with
      instances := s.instances.filter (fun p => s.activeKeys.contains p.1),
      initialized := s.initialized.filter (fun k => !(staleKeys.contains k)),
      activeKeys := [] }, evs)

/-- Embeds `RenderRoot`.  `render` is the oracle for `Component.Render`
(returning `none` where a Go render function returns a nil tree).  Follows
the source line by line: reset `activeKeys`; if a root component is set, run
its mount (first pass only, under the "__root__" initialization flag) and
parameters hooks; then dereference `currentComponent` unconditionally to
render — a panic when no root is set; stamp the component key; choose
clear-and-materialize (no previous tree), clear-and-materialize plus an
unmount of `r.currentComponent` and an initialization reset (component key
changed), or an incremental patch; store the new tree and cache it; run
cleanup. -/
def renderRoot (render : Comp → Option VNode) (s : RState) :
    Except GoPanic (RState × List REvent) :=
  let s0 : RState := { s with activeKeys := [] }
  let lifecycle : RState × List REvent :=
    match s0.currentComponent with
    | none => (s0, [])
    | some c =>
      let stepMount : RState × List REvent :=
        if s0.initialized.contains "__root__" then (s0, [])
        else ({ s0 with initialized := insertKey s0.initialized "__root__" },
              if c.mountable then [REvent.mountCall c.id "__root__"] else [])
      (stepMount.1,
       stepMount.2 ++ (if c.paramReceiver then [REvent.paramsCall c.id "__root__"] else []))
  let s1 := lifecycle.1
  match s1.currentComponent with
  | none => .error .nilRootRender
  | some c =>
    match render c with
    | none => .error .nilVNodeKeyStamp
    | some v0 =>
      let v := setComponentKey v0 s1.currentKey
      let domStep : RState × List REvent :=
        match s1.prevVDOM with
        | none => (s1, [REvent.clearMount, REvent.renderFresh])
        | some pv =>
          if pv.componentKey ≠ v.componentKey then
            ({ s1 with initialized := [] },
             [REvent.clearMount, REvent.renderFresh] ++
               (if c.unmountable then [REvent.unmountCall c.id "__root__"] else []))
          else (s1, [REvent.patchDom])
      let s2 : RState := { domStep.1 with
        prevVDOM := some v, vdomCache := assocSet domStep.1.vdomCache c.id v }
      let cleaned := cleanup s2
      .ok (cleaned.1,
        lifecycle.2 ++ [REvent.renderCall c.id] ++ domStep.2 ++ cleaned.2)

/-- Composite key derivation of `RenderChild`: parent identity (Go formats
the parent pointer; here its identity number), a colon, and the local key;
the bare local key when the rendering stack is empty. -/
def globalKeyOf (stack : List Comp) (key : String) : String :=
  match stack with
  | [] => key
  | parent :: _ => toString parent.id ++ ":" ++ key

/-- Embeds `RenderChild` for one invocation, with the rendering stack at
the moment of the call passed explicitly.  Marks the composite key active;
on a first encounter stores the candidate, runs its mount hook when
supported and records initialization; on reuse keeps the stored instance
and copies props onto it when it supports `PropUpdater`.  Either way the
parameters hook runs when supported, the resolved instance's render
function is invoked, and the resolved instance is returned. -/
def renderChild (stack : List Comp) (key : String) (cand : Comp) (s : RState) :
    RState × List REvent × Comp :=
  let gk := globalKeyOf stack key
  let sA : RState := { s with activeKeys := insertKey s.activeKeys gk }
  match assocFind sA.instances gk with
  | none =>
      let sB : RState := { sA with instances := sA.instances ++ [(gk, cand)] }
      let evM := if cand.mountable then [REvent.mountCall cand.id gk] else []
      let sC : RState := { sB with initialized := insertKey sB.initialized gk }
      let evP := if cand.paramReceiver then [REvent.paramsCall cand.id gk] else []
      (sC, evM ++ evP ++ [REvent.renderCall cand.id], cand)
  | some inst =>
      let evA := if inst.propUpdater then [REvent.applyPropsCall inst.id cand.id] else []
      let evP := if inst.paramReceiver then [REvent.paramsCall inst.id gk] else []
      (sA, evA ++ evP ++ [REvent.renderCall inst.id], inst)

/-- One `RenderChild` invocation as recorded during a pass: the rendering
stack at the call site, the local key, and the freshly constructed
candidate instance. -/
structure ChildCall where
  stack : List Comp
  key : String
  cand : Comp
deriving Repr

/-- Runs the sequence of `RenderChild` invocations a pass performs,
threading the state and collecting the events and resolved instances. -/
def runResolutions : List ChildCall → RState → RState × List REvent × List Comp
  | [], s => (s, [], [])
  | cc :: rest, s =>
    let step := renderChild cc.stack cc.key cc.cand s
    let next := runResolutions rest step.1
    (next.1, step.2.1 ++ next.2.1, step.2.2 :: next.2.2)

/-- The Instance-Registry portion of one root render pass: reset
`activeKeys`, run the pass's `RenderChild` invocations, then
`cleanupUnmountedComponents`.  Returns the state, the resolution-phase
events, the cleanup-phase events (everything after mutation application),
and the resolved instances in call order.  The root component's own
lifecycle and the DOM phase are modelled by `renderRoot`. -/
def renderPass (calls : List ChildCall) (s : RState) :
    RState × List REvent × List REvent × List Comp :=
  let s0 : RState := { s with activeKeys := [] }
  let res := runResolutions calls s0
  let cleaned := cleanup res.1
  (cleaned.1, res.2.1, cleaned.2, res.2.2)

/-- Runs consecutive render passes, collecting per-pass resolution events,
cleanup events and resolved instances. -/
def runPasses : List (List ChildCall) → RState →
    RState × List (List REvent × List REvent × List Comp)
  | [], s => (s, [])
  | c :: rest, s =>
    let p := renderPass c s
    let next := runPasses rest p.1
    (next.1, (p.2.1, p.2.2.1, p.2.2.2) :: next.2)

/-- Whether a pass's invocation list resolves the composite key `K`. -/
def resolvesKey (calls : List ChildCall) (K : String) : Bool :=
  calls.any (fun cc => globalKeyOf cc.stack cc.key == K)

/-- Counts unmount events recorded for the composite key `K`. -/
def countUnmountFor (evs : List REvent) (K : String) : Nat :=
  (evs.filter (fun e =>
    match e with
    | .unmountCall _ k => k == K
    | _ => false)).length

/-- Errors returned (as Go `error` values) by the scoped re-render path. -/
inductive SlotErr where
  | nilSlotParent
  | nilRenderResult
deriving DecidableEq, Repr

/-- Embeds `reRenderFull`: render the component, fail on a nil tree,
otherwise materialize into the mount point, cache the tree for the
component and retain it as the root's previous tree. -/
def reRenderFull (render : Comp → Option VNode) (c : Comp) (s : RState) :
    RState × List REvent × Option SlotErr :=
  match render c with
  | none => (s, [REvent.renderCall c.id], some .nilRenderResult)
  | some v =>
      ({ s with vdomCache := assocSet s.vdomCache c.id v, prevVDOM := some v },
       [REvent.renderCall c.id, REvent.renderFresh], none)

/-- Embeds `ReRenderSlot`: nil owner is an error; an owner with no cached
previous tree falls back to `reRenderFull`; otherwise the owner re-renders
and the result is diffed against the owner's cached tree and patched, and
the cache is updated. -/
def reRenderSlot (render : Comp → Option VNode) (s : RState)
    (slotParent : Option Comp) : RState × List REvent × Option SlotErr :=
  match slotParent with
  | none => (s, [], some .nilSlotParent)
  | some c =>
    match assocFind s.vdomCache c.id with
    | none => reRenderFull render c s
    | some _ =>
      match render c with
      | none => (s, [REvent.renderCall c.id], some .nilRenderResult)
      | some v =>
          ({ s with vdomCache := assocSet s.vdomCache c.id v },
           [REvent.renderCall c.id, REvent.patchDom], none)

@[simp] theorem VNode.tag_mk (t : String) (a : AttrMap) (cs : List VNode)
    (c : String) (oc : Option Nat) (k : String) :
    (VNode.mk t a cs c oc k).tag = t := rfl

@[simp] theorem VNode.attrs_mk (t : String) (a : AttrMap) (cs : List VNode)
    (c : String) (oc : Option Nat) (k : String) :
    (VNode.mk t a cs c oc k).attrs = a := rfl

@[simp] theorem VNode.children_mk (t : String) (a : AttrMap) (cs : List VNode)
    (c : String) (oc : Option Nat) (k : String) :
    (VNode.mk t a cs c oc k).children = cs := rfl

@[simp] theorem VNode.content_mk (t : String) (a : AttrMap) (cs : List VNode)
    (c : String) (oc : Option Nat) (k : String) :
    (VNode.mk t a cs c oc k).content = c := rfl

@[simp] theorem VNode.onClick_mk (t : String) (a : AttrMap) (cs : List VNode)
    (c : String) (oc : Option Nat) (k : String) :
    (VNode.mk t a cs c oc k).onClick = oc := rfl

@[simp] theorem VNode.componentKey_mk (t : String) (a : AttrMap) (cs : List VNode)
    (c : String) (oc : Option Nat) (k : String) :
    (VNode.mk t a cs c oc k).componentKey = k := rfl

@[simp] theorem DNode.value_elem (t : String) (a : AttrMap) (l : List (String × Nat))
    (v tx : String) (f : Bool) (cs : List DNode) :
    (DNode.elem t a l v tx f cs).value = v := rfl

@[simp] theorem DNode.textContent_elem (t : String) (a : AttrMap) (l : List (String × Nat))
    (v tx : String) (f : Bool) (cs : List DNode) :
    (DNode.elem t a l v tx f cs).textContent = tx := rfl

@[simp] theorem DNode.focused_elem (t : String) (a : AttrMap) (l : List (String × Nat))
    (v tx : String) (f : Bool) (cs : List DNode) :
    (DNode.elem t a l v tx f cs).focused = f := rfl

@[simp] theorem DNode.childrenOf_elem (t : String) (a : AttrMap) (l : List (String × Nat))
    (v tx : String) (f : Bool) (cs : List DNode) :
    (DNode.elem t a l v tx f cs).childrenOf = cs := rfl

@[simp] theorem DNode.listenersOf_elem (t : String) (a : AttrMap) (l : List (String × Nat))
    (v tx : String) (f : Bool) (cs : List DNode) :
    (DNode.elem t a l v tx f cs).listenersOf = l := rfl

@[simp] theorem DNode.value_textNode (s : String) : (DNode.textNode s).value = "" := rfl

@[simp] theorem DNode.textContent_textNode (s : String) :
    (DNode.textNode s).textContent = s := rfl

@[simp] theorem DNode.focused_textNode (s : String) :
    (DNode.textNode s).focused = false := rfl

/-! Preservation facts about the native-node primitives: attribute and
listener calls never touch the `value`, `textContent`, `focused` or child
state of an element, and the child/value/text setters never touch the
rest. -/

@[simp] theorem applyAttrOp_value (d : DNode) (op : AttrOp) :
    (applyAttrOp d op).value = d.value := by
  cases d <;> cases op <;> rfl

@[simp] theorem applyAttrOp_textContent (d : DNode) (op : AttrOp) :
    (applyAttrOp d op).textContent = d.textContent := by
  cases d <;> cases op <;> rfl

@[simp] theorem applyAttrOp_focused (d : DNode) (op : AttrOp) :
    (applyAttrOp d op).focused = d.focused := by
  cases d <;> cases op <;> rfl

@[simp] theorem applyAttrOp_childrenOf (d : DNode) (op : AttrOp) :
    (applyAttrOp d op).childrenOf = d.childrenOf := by
  cases d <;> cases op <;> rfl

@[simp] theorem applyAttrOps_value (d : DNode) (ops : List AttrOp) :
    (applyAttrOps d ops).value = d.value := by
  induction ops generalizing d with
  | nil => rfl
  | cons op rest ih => simpa [applyAttrOps] using ih (applyAttrOp d op)

@[simp] theorem applyAttrOps_textContent (d : DNode) (ops : List AttrOp) :
    (applyAttrOps d ops).textContent = d.textContent := by
  induction ops generalizing d with
  | nil => rfl
  | cons op rest ih => simpa [applyAttrOps] using ih (applyAttrOp d op)

@[simp] theorem applyAttrOps_focused (d : DNode) (ops : List AttrOp) :
    (applyAttrOps d ops).focused = d.focused := by
  induction ops generalizing d with
  | nil => rfl
  | cons op rest ih => simpa [applyAttrOps] using ih (applyAttrOp d op)

@[simp] theorem applyAttrOps_childrenOf (d : DNode) (ops : List AttrOp) :
    (applyAttrOps d ops).childrenOf = d.childrenOf := by
  induction ops generalizing d with
  | nil => rfl
  | cons op rest ih => simpa [applyAttrOps] using ih (applyAttrOp d op)

@[simp] theorem withChildren_value (d : DNode) (cs : List DNode) :
    (d.withChildren cs).value = d.value := by cases d <;> rfl

@[simp] theorem withChildren_textContent (d : DNode) (cs : List DNode) :
    (d.withChildren cs).textContent = d.textContent := by cases d <;> rfl

@[simp] theorem withChildren_focused (d : DNode) (cs : List DNode) :
    (d.withChildren cs).focused = d.focused := by cases d <;> rfl

@[simp] theorem setValue_focused (d : DNode) (s : String) :
    (d.setValue s).focused = d.focused := by cases d <;> rfl

@[simp] theorem setValue_textContent (d : DNode) (s : String) :
    (d.setValue s).textContent = d.textContent := by cases d <;> rfl

@[simp] theorem setTextContent_value (d : DNode) (s : String) :
    (d.setTextContent s).value = d.value := by cases d <;> rfl

def DNode.isElem : DNode → Bool
  | .elem _ _ _ _ _ _ _ => true
  | .textNode _ => false

@[simp] theorem DNode.isElem_elem (t : String) (a : AttrMap) (l : List (String × Nat))
    (v tx : String) (f : Bool) (cs : List DNode) :
    (DNode.elem t a l v tx f cs).isElem = true := rfl

@[simp] theorem applyAttrOp_isElem (d : DNode) (op : AttrOp) :
    (applyAttrOp d op).isElem = d.isElem := by
  cases d <;> cases op <;> rfl

@[simp] theorem applyAttrOps_isElem (d : DNode) (ops : List AttrOp) :
    (applyAttrOps d ops).isElem = d.isElem := by
  induction ops generalizing d with
  | nil => rfl
  | cons op rest ih => simpa [applyAttrOps] using ih (applyAttrOp d op)

@[simp] theorem setValue_value (d : DNode) (s : String) :
    (d.setValue s).value = if d.isElem = true then s else d.value := by
  cases d <;> rfl

@[simp] theorem setTextContent_textContent (d : DNode) (s : String) :
    (d.setTextContent s).textContent = s := by cases d <;> rfl

@[simp] theorem assocFind_nil {κ ν : Type} [DecidableEq κ] (k : κ) :
    assocFind ([] : List (κ × ν)) k = none := rfl

@[simp] theorem assocFind_cons {κ ν : Type} [DecidableEq κ] (p : κ × ν)
    (rest : List (κ × ν)) (k : κ) :
    assocFind (p :: rest) k = if p.1 = k then some p.2 else assocFind rest k := rfl

theorem assocFind_eq_none_of_notMem {κ ν : Type} [DecidableEq κ]
    (m : List (κ × ν)) (k : κ) (h : k ∉ m.map Prod.fst) : assocFind m k = none := by
  induction m with
  | nil => rfl
  | cons p rest ih =>
    simp only [List.map_cons, List.mem_cons, not_or] at h
    have hne : p.1 ≠ k := fun hp => h.1 hp.symm
    simp [assocFind_cons, hne, ih h.2]

theorem attrOpsOn_append (a b : List AttrOp) (k : String) :
    attrOpsOn (a ++ b) k = attrOpsOn a k ++ attrOpsOn b k := by
  simp [attrOpsOn, List.filter_append]

@[simp] theorem attrOpsOn_nil (k : String) : attrOpsOn [] k = [] := rfl

@[simp] theorem listenerAdds_nil : listenerAdds [] = [] := rfl

theorem listenerAdds_append (a b : List AttrOp) :
    listenerAdds (a ++ b) = listenerAdds a ++ listenerAdds b := by
  simp [listenerAdds, List.filterMap_append]

theorem attrOpsOn_setAttributeValue_self (k : String) (v : AttrVal) :
    attrOpsOn (setAttributeValue k v) k = setAttributeValue k v := by
  cases v with
  | boolean b => cases b <;> simp [setAttributeValue, attrOpsOn]
  | str s => simp [setAttributeValue, attrOpsOn]
  | handler i => simp [setAttributeValue, attrOpsOn]
  | fn0 i => simp [setAttributeValue, attrOpsOn]

theorem attrOpsOn_setAttributeValue_ne (k1 k : String) (v : AttrVal) (h : k1 ≠ k) :
    attrOpsOn (setAttributeValue k1 v) k = [] := by
  cases v with
  | boolean b => cases b <;> simp [setAttributeValue, attrOpsOn, h]
  | str s => simp [setAttributeValue, attrOpsOn, h]
  | handler i => simp [setAttributeValue, attrOpsOn, h]
  | fn0 i => simp [setAttributeValue, attrOpsOn, h]

theorem listenerAdds_setAttributeValue (k : String) (v : AttrVal) :
    listenerAdds (setAttributeValue k v) = [] := by
  cases v with
  | boolean b => cases b <;> simp [setAttributeValue, listenerAdds]
  | str s => simp [setAttributeValue, listenerAdds]
  | handler i => simp [setAttributeValue, listenerAdds]
  | fn0 i => simp [setAttributeValue, listenerAdds]

theorem listenerAdds_removalOps (oldA newA : AttrMap) :
    listenerAdds (removalOps oldA newA) = [] := by
  induction oldA with
  | nil => rfl
  | cons p rest ih =>
    by_cases h1 : (assocFind newA p.1).isSome <;>
      by_cases h2 : isEventKey p.1 <;>
      simp [removalOps, listenerAdds, h1, h2] at ih ⊢ <;>
      simpa [removalOps, listenerAdds] using ih

theorem listenerAdds_setOps (oldA newA : AttrMap) :
    listenerAdds (setOps oldA newA) = [] := by
  induction newA with
  | nil => rfl
  | cons p rest ih =>
    simp only [setOps] at ih ⊢
    rw [List.foldr_cons, listenerAdds_append, ih]
    by_cases h1 : isEventKey p.1 <;>
      by_cases h2 : assocFind oldA p.1 = some p.2 <;>
      simp [h1, h2, listenerAdds_setAttributeValue]

theorem listenerAdds_patchAttributes (oldA newA : AttrMap) :
    listenerAdds (patchAttributes oldA newA) = [] := by
  rw [patchAttributes, listenerAdds_append, listenerAdds_removalOps,
    listenerAdds_setOps]
  rfl

@[simp] theorem setValue_listenersOf (d : DNode) (s : String) :
    (d.setValue s).listenersOf = d.listenersOf := by cases d <;> rfl

@[simp] theorem setTextContent_listenersOf (d : DNode) (s : String) :
    (d.setTextContent s).listenersOf = d.listenersOf := by cases d <;> rfl

@[simp] theorem withChildren_listenersOf (d : DNode) (cs : List DNode) :
    (d.withChildren cs).listenersOf = d.listenersOf := by cases d <;> rfl

theorem applyAttrOps_listenersOf (d : DNode) (ops : List AttrOp)
    (h : d.isElem = true) :
    (applyAttrOps d ops).listenersOf = d.listenersOf ++ listenerAdds ops := by
  induction ops generalizing d with
  | nil => simp [applyAttrOps, listenerAdds]
  | cons op rest ih =>
    have hstep : (applyAttrOp d op).isElem = true := by simpa using h
    have := ih (applyAttrOp d op) hstep
    rw [applyAttrOps] at this ⊢
    rw [List.foldl_cons, this]
    cases d with
    | textNode s => simp [DNode.isElem] at h
    | elem t a l v tx f cs =>
      cases op <;> simp [applyAttrOp, listenerAdds, DNode.listenersOf]

theorem attrOpsOn_cons_removeAttr_ne (k1 k : String) (h : k1 ≠ k)
    (tl : List AttrOp) :
    attrOpsOn (AttrOp.removeAttr k1 :: tl) k = attrOpsOn tl k := by
  simp [attrOpsOn, List.filter_cons, h]

theorem attrOpsOn_cons_removeAttr_self (k : String) (tl : List AttrOp) :
    attrOpsOn (AttrOp.removeAttr k :: tl) k = AttrOp.removeAttr k :: attrOpsOn tl k := by
  simp [attrOpsOn, List.filter_cons]

theorem removalOps_cons (p : String × AttrVal) (rest newA : AttrMap) :
    removalOps (p :: rest) newA =
      (if (assocFind newA p.1).isSome = true then removalOps rest newA
       else if isEventKey p.1 = true then removalOps rest newA
       else AttrOp.removeAttr p.1 :: removalOps rest newA) := by
  rw [removalOps, List.filterMap_cons]
  by_cases h1 : (assocFind newA p.1).isSome = true <;>
    by_cases h2 : isEventKey p.1 = true <;>
    simp [h1, h2, removalOps]

theorem setOps_cons (p : String × AttrVal) (rest oldA : AttrMap) :
    setOps oldA (p :: rest) =
      (if isEventKey p.1 = true then []
       else if assocFind oldA p.1 = some p.2 then []
       else setAttributeValue p.1 p.2) ++ setOps oldA rest := by
  rw [setOps, List.foldr_cons]
  rfl

theorem attrOpsOn_removalOps_none (oldA newA : AttrMap) (k : String)
    (h : assocFind oldA k = none) :
    attrOpsOn (removalOps oldA newA) k = [] := by
  induction oldA with
  | nil => rfl
  | cons p rest ih =>
    rw [assocFind_cons] at h
    by_cases hk : p.1 = k
    · rw [if_pos hk] at h
      exact absurd h (by simp)
    · rw [if_neg hk] at h
      rw [removalOps_cons]
      by_cases h1 : (assocFind newA p.1).isSome = true
      · rw [if_pos h1]
        exact ih h
      · rw [if_neg h1]
        by_cases h2 : isEventKey p.1 = true
        · rw [if_pos h2]
          exact ih h
        · rw [if_neg h2, attrOpsOn_cons_removeAttr_ne p.1 k hk]
          exact ih h

theorem attrOpsOn_setOps_none (oldA newA : AttrMap) (k : String)
    (h : assocFind newA k = none) :
    attrOpsOn (setOps oldA newA) k = [] := by
  induction newA with
  | nil => rfl
  | cons p rest ih =>
    rw [assocFind_cons] at h
    by_cases hk : p.1 = k
    · rw [if_pos hk] at h
      exact absurd h (by simp)
    · rw [if_neg hk] at h
      rw [setOps_cons, attrOpsOn_append, ih h, List.append_nil]
      by_cases h1 : isEventKey p.1 = true
      · rw [if_pos h1]
        rfl
      · rw [if_neg h1]
        by_cases h2 : assocFind oldA p.1 = some p.2
        · rw [if_pos h2]
          rfl
        · rw [if_neg h2]
          exact attrOpsOn_setAttributeValue_ne p.1 k p.2 hk

theorem attrOpsOn_removalOps (oldA newA : AttrMap) (k : String)
    (hold : nodupKeys oldA) :
    attrOpsOn (removalOps oldA newA) k =
      (if (assocFind oldA k).isSome = true ∧ (assocFind newA k).isNone = true ∧
          isEventKey k = false
       then [AttrOp.removeAttr k] else []) := by
  induction oldA with
  | nil => simp [removalOps, attrOpsOn]
  | cons p rest ih =>
    have hnd : p.1 ∉ rest.map Prod.fst ∧ nodupKeys rest := by
      simpa [nodupKeys] using hold
    rw [removalOps_cons]
    by_cases hk : p.1 = k
    · subst hk
      have hrest0 : attrOpsOn (removalOps rest newA) p.1 = [] :=
        attrOpsOn_removalOps_none rest newA p.1
          (assocFind_eq_none_of_notMem rest p.1 hnd.1)
      by_cases h1 : (assocFind newA p.1).isSome = true
      · obtain ⟨w, hw⟩ := Option.isSome_iff_exists.mp h1
        rw [if_pos h1, hrest0]
        simp [assocFind_cons, hw]
      · have hnone : assocFind newA p.1 = none :=
          Option.not_isSome_iff_eq_none.mp (by simpa using h1)
        rw [if_neg h1]
        by_cases h2 : isEventKey p.1 = true
        · rw [if_pos h2, hrest0]
          simp [assocFind_cons, hnone, h2]
        · rw [if_neg h2, attrOpsOn_cons_removeAttr_self, hrest0]
          have h2f : isEventKey p.1 = false := by simpa using h2
          simp [assocFind_cons, hnone, h2f]
    · have htail := ih hnd.2
      by_cases h1 : (assocFind newA p.1).isSome = true
      · rw [if_pos h1, htail]
        simp [assocFind_cons, hk]
      · rw [if_neg h1]
        by_cases h2 : isEventKey p.1 = true
        · rw [if_pos h2, htail]
          simp [assocFind_cons, hk]
        · rw [if_neg h2, attrOpsOn_cons_removeAttr_ne p.1 k hk, htail]
          simp [assocFind_cons, hk]

theorem attrOpsOn_setOps (oldA newA : AttrMap) (k : String)
    (hnew : nodupKeys newA) :
    attrOpsOn (setOps oldA newA) k =
      (match assocFind newA k with
       | some v =>
          if isEventKey k = false ∧ assocFind oldA k ≠ some v
          then setAttributeValue k v else []
       | none => []) := by
  induction newA with
  | nil => simp [setOps, attrOpsOn]
  | cons p rest ih =>
    have hnd : p.1 ∉ rest.map Prod.fst ∧ nodupKeys rest := by
      simpa [nodupKeys] using hnew
    rw [setOps_cons, attrOpsOn_append]
    by_cases hk : p.1 = k
    · subst hk
      have hrest0 : attrOpsOn (setOps oldA rest) p.1 = [] :=
        attrOpsOn_setOps_none oldA rest p.1
          (assocFind_eq_none_of_notMem rest p.1 hnd.1)
      rw [hrest0, List.append_nil]
      by_cases h1 : isEventKey p.1 = true
      · rw [if_pos h1]
        simp [assocFind_cons, h1, attrOpsOn]
      · rw [if_neg h1]
        by_cases h2 : assocFind oldA p.1 = some p.2
        · rw [if_pos h2]
          simp [assocFind_cons, h1, h2, attrOpsOn]
        · rw [if_neg h2, attrOpsOn_setAttributeValue_self]
          have h1f : isEventKey p.1 = false := by simpa using h1
          simp [assocFind_cons, h1f, h2]
    · have hhead : attrOpsOn
          (if isEventKey p.1 = true then []
           else if assocFind oldA p.1 = some p.2 then []
           else setAttributeValue p.1 p.2) k = [] := by
        by_cases h1 : isEventKey p.1 = true
        · rw [if_pos h1]
          rfl
        · rw [if_neg h1]
          by_cases h2 : assocFind oldA p.1 = some p.2
          · rw [if_pos h2]
            rfl
          · rw [if_neg h2]
            exact attrOpsOn_setAttributeValue_ne p.1 k p.2 hk
      rw [hhead, List.nil_append, ih hnd.2]
      simp [assocFind_cons, hk]

/-- On an equal-tag patch of a native element, the element's listener list
grows by exactly the listener attachments derived from the new node's
attribute map: `patchAttributes` emits no attachments and the re-attachment
step appends one per handler-valued event key. -/
theorem patchElement_listenersOf (d : DNode) (o n : VNode)
    (hde : d.isElem = true) (htag : o.tag = n.tag) :
    (patchElement d o n).listenersOf =
      d.listenersOf ++ listenerAdds (attachEventListeners n.attrs) := by
  cases o with
  | mk ot oat och oc ooc ock =>
  cases n with
  | mk nt nat nch nc noc nck =>
  simp only [VNode.tag_mk] at htag
  subst htag
  simp only [VNode.attrs_mk]
  have hd2 : (applyAttrOps (applyAttrOps d (patchAttributes oat nat))
      (attachEventListeners nat)).listenersOf =
      d.listenersOf ++ listenerAdds (attachEventListeners nat) := by
    rw [applyAttrOps_listenersOf _ _ (by simpa using hde),
      applyAttrOps_listenersOf _ _ hde, listenerAdds_patchAttributes,
      List.append_nil]
  simp only [patchElement, if_neg (by simp : ¬ (ot ≠ ot))]
  split_ifs <;>
    simp [withChildren_listenersOf, setValue_listenersOf,
      setTextContent_listenersOf, hd2]

/-- Claim C5, counterexample.  The claim asserts that keys starting with
"on" are never removed and that every changed attribute is written to the
native element.  At the explicit input below (previous map carrying the key
"on" and the key "disabled" with value true; new map carrying only
"disabled" with value false) the patch emits exactly one native call: it
removes the attribute "on" — a key starting with "on" — and performs no
native write at all for "disabled", whose value changed from true to
false (the attribute setter is a no-op for boolean false). -/
theorem C5_counterexample :
    patchAttributes [("on", AttrVal.str "x"), ("disabled", AttrVal.boolean true)]
        [("disabled", AttrVal.boolean false)] = [AttrOp.removeAttr "on"] ∧
    assocFind [("on", AttrVal.str "x"), ("disabled", AttrVal.boolean true)]
        "disabled" ≠
      assocFind [("disabled", AttrVal.boolean false)] "disabled" := by
  constructor
  · rfl
  · decide

/-- Claim C5, amended.  When patching a node pair with equal discriminants:
an attribute key receives a native `removeAttribute` call exactly when it is
present in the previous map, absent from the new map, and does not pass the
event-key test (length greater than two and starting with "on"); a non-event
key present in the new map goes through the attribute setter exactly when
its value differs from the previous map's value, and the setter writes
strings directly, writes boolean true as the empty string, and performs no
native call for boolean false or handler values; unchanged attributes
receive no call at all.  Event keys are never removed; instead, every
equal-tag patch re-attaches a listener for each event key of the new map
whose value is a handler function, appending to the element's listener
list. -/
theorem C5_theorem (oldA newA : AttrMap)
    (hold : nodupKeys oldA) (hnew : nodupKeys newA) :
    (∀ k, attrOpsOn (patchAttributes oldA newA) k =
      (if (assocFind oldA k).isSome = true ∧ (assocFind newA k).isNone = true ∧
          isEventKey k = false
       then [AttrOp.removeAttr k] else []) ++
      (match assocFind newA k with
       | some v =>
          if isEventKey k = false ∧ assocFind oldA k ≠ some v
          then setAttributeValue k v else []
       | none => [])) ∧
    (∀ (d : DNode) (o n : VNode), d.isElem = true → o.tag = n.tag →
      (patchElement d o n).listenersOf =
        d.listenersOf ++ listenerAdds (attachEventListeners n.attrs)) := by
  constructor
  · intro k
    rw [patchAttributes, attrOpsOn_append, attrOpsOn_removalOps oldA newA k hold,
      attrOpsOn_setOps oldA newA k hnew]
  · intro d o n hde htag
    exact patchElement_listenersOf d o n hde htag

/-- Claim C5, witness for the amended theorem at concrete attribute maps
(previous: a title string and an onClick handler; next: a changed title). -/
theorem C5_witness :
    nodupKeys [("title", AttrVal.str "a"), ("onClick", AttrVal.handler 5)] ∧
    nodupKeys [("title", AttrVal.str "b")] ∧
    ((∀ k, attrOpsOn (patchAttributes
        [("title", AttrVal.str "a"), ("onClick", AttrVal.handler 5)]
        [("title", AttrVal.str "b")]) k =
      (if (assocFind [("title", AttrVal.str "a"), ("onClick", AttrVal.handler 5)]
            k).isSome = true ∧
          (assocFind [("title", AttrVal.str "b")] k).isNone = true ∧
          isEventKey k = false
       then [AttrOp.removeAttr k] else []) ++
      (match assocFind [("title", AttrVal.str "b")] k with
       | some v =>
          if isEventKey k = false ∧
              assocFind [("title", AttrVal.str "a"), ("onClick", AttrVal.handler 5)]
                k ≠ some v
          then setAttributeValue k v else []
       | none => [])) ∧
    (∀ (d : DNode) (o n : VNode), d.isElem = true → o.tag = n.tag →
      (patchElement d o n).listenersOf =
        d.listenersOf ++ listenerAdds (attachEventListeners n.attrs))) :=
  ⟨by decide, by decide,
    C5_theorem [("title", AttrVal.str "a"), ("onClick", AttrVal.handler 5)]
      [("title", AttrVal.str "b")] (by decide) (by decide)⟩

theorem patchZip_length (doms : List DNode) (olds news : List VNode) :
    (patchZip doms olds news).length = doms.length := by
  induction doms generalizing olds news with
  | nil => cases olds <;> cases news <;> simp [patchZip]
  | cons dd ds ih => cases olds <;> cases news <;> simp [patchZip, ih]

theorem patchZip_getElem (doms : List DNode) (olds news : List VNode) (i : Nat)
    (d : DNode) (o nn : VNode) (hd : doms[i]? = some d) (ho : olds[i]? = some o)
    (hn : news[i]? = some nn) :
    (patchZip doms olds news)[i]? = some (patchElement d o nn) := by
  induction doms generalizing olds news i with
  | nil => simp at hd
  | cons dd ds ih =>
    cases olds with
    | nil => simp at ho
    | cons oo os =>
      cases news with
      | nil => simp at hn
      | cons n1 ns =>
        cases i with
        | zero =>
          simp only [List.getElem?_cons_zero, Option.some_inj] at hd ho hn
          subst hd; subst ho; subst hn
          simp [patchZip]
        | succ j =>
          simp only [List.getElem?_cons_succ] at hd ho hn
          simpa [patchZip] using ih os ns j hd ho hn

theorem take_eraseIdx_of_le {α : Type} (l : List α) (i nl : Nat) (h : nl ≤ i) :
    (l.eraseIdx i).take nl = l.take nl := by
  induction l generalizing i nl with
  | nil => simp
  | cons a tl ih =>
    cases i with
    | zero =>
      have : nl = 0 := Nat.le_zero.mp h
      simp [this]
    | succ j =>
      cases nl with
      | zero => simp
      | succ m =>
        simp only [List.eraseIdx, List.take_cons, List.take_succ_cons]
        rw [ih j m (Nat.succ_le_succ_iff.mp h)]

theorem drop_eraseIdx_self {α : Type} (l : List α) (i : Nat) :
    (l.eraseIdx i).drop i = l.drop (i + 1) := by
  induction l generalizing i with
  | nil => simp
  | cons a tl ih =>
    cases i with
    | zero => simp [List.eraseIdx]
    | succ j =>
      simp only [List.eraseIdx, List.drop_succ_cons]
      exact ih j

theorem removeLoop_eq (l : List DNode) (nl k : Nat) :
    removeLoop l nl k = l.take nl ++ l.drop (nl + k) := by
  induction k generalizing l with
  | zero => simp [removeLoop]
  | succ j ih =>
    rw [removeLoop, ih, take_eraseIdx_of_le l (nl + j) nl (Nat.le_add_right nl j),
      drop_eraseIdx_self, Nat.add_assoc]

theorem filterMap_length_of_isSome {α β : Type} (l : List α) (f : α → Option β)
    (h : ∀ c ∈ l, (f c).isSome = true) : (l.filterMap f).length = l.length := by
  induction l with
  | nil => rfl
  | cons a tl ih =>
    obtain ⟨w, hw⟩ := Option.isSome_iff_exists.mp (h a (List.mem_cons_self a tl))
    rw [List.filterMap_cons, hw]
    simp only [List.length_cons]
    rw [ih (fun c hc => h c (List.mem_cons_of_mem a hc))]

/-- Claim C1, counterexample.  The claim asserts that for an equal-tag patch
of an editable-text element that is not focused, a new content differing
from the current native value is always written.  At the explicit input
below (native input element with value "x", not focused; new tree content
"" which differs from "x") the engine leaves the value at "x", because the
source additionally requires the new content to be non-empty
(`newVNode.Content != ""`). -/
theorem C1_counterexample :
    (DNode.elem "input" [] [] "x" "" false []).focused = false ∧
    (DNode.elem "input" [] [] "x" "" false []).value ≠
      (VNode.mk "input" [] [] "" none "").content ∧
    (patchElement (.elem "input" [] [] "x" "" false [])
        (.mk "input" [] [] "x" none "") (.mk "input" [] [] "" none "")).value =
      (DNode.elem "input" [] [] "x" "" false []).value := by
  refine ⟨rfl, by decide, ?_⟩
  simp [patchElement, patchZip]

/-- Claim C1, amended.  For every patch step on an editable-text element
(tag "input" or "textarea") whose discriminant is unchanged: if the native
element currently has input focus, its native value is never altered,
regardless of the new tree's content; if it is not focused and the new
tree's content is non-empty and differs from the current native value, the
native value is overwritten with the new content; if it is not focused and
the new tree's content is empty, the native value is left unchanged. -/
theorem C1_theorem (et : String) (ea : AttrMap) (el : List (String × Nat))
    (ev etx : String) (ef : Bool) (ecs : List DNode) (o n : VNode)
    (htag : o.tag = n.tag) (hcls : n.tag = "input" ∨ n.tag = "textarea") :
    (ef = true →
      (patchElement (.elem et ea el ev etx ef ecs) o n).value = ev) ∧
    (ef = false → n.content ≠ "" → ev ≠ n.content →
      (patchElement (.elem et ea el ev etx ef ecs) o n).value = n.content) ∧
    (ef = false → n.content = "" →
      (patchElement (.elem et ea el ev etx ef ecs) o n).value = ev) := by
  cases o with
  | mk ot oat och oc ooc ock =>
  cases n with
  | mk nt nat nch nc noc nck =>
  simp only [VNode.tag_mk] at htag hcls
  subst htag
  simp only [VNode.content_mk]
  rcases hcls with hcl | hcl <;> subst hcl <;>
    refine ⟨fun hf => by simp [patchElement, hf],
            fun hf hne hdiff => by simp [patchElement, hf, hne, hdiff],
            fun hf hc => by simp [patchElement, hf, hc]⟩

/-- Claim C1, witness for the amended theorem at a concrete input: an
unfocused native input with value "x" patched from content "x" to content
"h". -/
theorem C1_witness :
    (VNode.mk "input" [] [] "x" none "").tag =
      (VNode.mk "input" [] [] "h" none "").tag ∧
    ((false = true →
      (patchElement (.elem "input" [] [] "x" "" false [])
        (.mk "input" [] [] "x" none "") (.mk "input" [] [] "h" none "")).value = "x") ∧
    (false = false → (VNode.mk "input" [] [] "h" none "").content ≠ "" →
      "x" ≠ (VNode.mk "input" [] [] "h" none "").content →
      (patchElement (.elem "input" [] [] "x" "" false [])
        (.mk "input" [] [] "x" none "") (.mk "input" [] [] "h" none "")).value =
        (VNode.mk "input" [] [] "h" none "").content) ∧
    (false = false → (VNode.mk "input" [] [] "h" none "").content = "" →
      (patchElement (.elem "input" [] [] "x" "" false [])
        (.mk "input" [] [] "x" none "") (.mk "input" [] [] "h" none "")).value = "x")) :=
  ⟨rfl, C1_theorem "input" [] [] "x" "" false [] _ _ rfl (Or.inl rfl)⟩

/-- Claim C6.  When patching a node pair with equal discriminants whose tag
is neither an editable-text element ("input"/"textarea") nor a selection
element ("select"): if the new node has no children, the native text
content is overwritten exactly when the old and new content differ; if the
new node has one or more children, the native text content is never set. -/
theorem C6_theorem (d : DNode) (o n : VNode)
    (htag : o.tag = n.tag) (h1 : n.tag ≠ "input") (h2 : n.tag ≠ "textarea")
    (h3 : n.tag ≠ "select") :
    (n.children = [] →
      (patchElement d o n).textContent =
        (if o.content ≠ n.content then n.content else d.textContent)) ∧
    (n.children ≠ [] → (patchElement d o n).textContent = d.textContent) := by
  cases o with
  | mk ot oat och oc ooc ock =>
  cases n with
  | mk nt nat nch nc noc nck =>
  simp only [VNode.tag_mk] at htag h1 h2 h3
  subst htag
  simp only [VNode.children_mk, VNode.content_mk]
  constructor
  · intro hch
    subst hch
    by_cases hoc : oc = nc <;> simp [patchElement, h1, h2, h3, hoc]
  · intro hch
    have hlen : nch.length ≠ 0 := by
      simpa [List.length_eq_zero] using hch
    simp [patchElement, h1, h2, h3, hlen]

/-- Claim C6, witness at a concrete input: a native div whose text moves
from "a" to "b" in the childless case. -/
theorem C6_witness :
    (VNode.mk "div" [] [] "a" none "").tag = (VNode.mk "div" [] [] "b" none "").tag ∧
    (((VNode.mk "div" [] [] "b" none "") : VNode).children = [] →
      (patchElement (.elem "div" [] [] "" "a" false [])
        (.mk "div" [] [] "a" none "") (.mk "div" [] [] "b" none "")).textContent =
        (if (VNode.mk "div" [] [] "a" none "").content ≠
            (VNode.mk "div" [] [] "b" none "").content
         then (VNode.mk "div" [] [] "b" none "").content
         else (DNode.elem "div" [] [] "" "a" false []).textContent)) ∧
    (((VNode.mk "div" [] [] "b" none "") : VNode).children ≠ [] →
      (patchElement (.elem "div" [] [] "" "a" false [])
        (.mk "div" [] [] "a" none "") (.mk "div" [] [] "b" none "")).textContent =
        (DNode.elem "div" [] [] "" "a" false []).textContent) :=
  ⟨rfl, C6_theorem (.elem "div" [] [] "" "a" false []) _ _ rfl
    (by decide) (by decide) (by decide)⟩

/-- Claim C7, counterexample.  The claim asserts that patching from `m` to
`n > m` children appends exactly `n - m` new children.  At the explicit
input below (`m = 0`, `n = 1`, the one new child carrying the tag "img",
which the materializer does not support and returns nothing for) the engine
appends nothing: the resulting native child list is empty although
`n - m = 1`. -/
theorem C7_counterexample :
    ([] : List DNode).length = ([] : List VNode).length ∧
    ([VNode.mk "img" [] [] "" none ""] : List VNode).length = 1 ∧
    (patchChildren [] [] [VNode.mk "img" [] [] "" none ""]).length = 0 :=
  ⟨rfl, rfl, rfl⟩

/-- Claim C7, amended.  For every patch of a node pair with equal
discriminants whose native child list matches the old child list in length:
the first `min(m, n)` native children are reconciled positionally in place
by `patchElement` and never recreated at the list level; if `n > m`, the
`n - m` surplus new children are each materialized in order and those whose
materialization yields a native node are appended at the tail — at most
`n - m` of them, and exactly `n - m` when every surplus child materializes;
if `m > n`, exactly `m - n` native children are removed from the tail
(iterating backward from the last index down to index `n`), leaving the
first `n` reconciled children. -/
theorem C7_theorem (doms : List DNode) (olds news : List VNode)
    (hlen : doms.length = olds.length) :
    (olds.length = news.length →
      patchChildren doms olds news = patchZip doms olds news) ∧
    (olds.length < news.length →
      patchChildren doms olds news =
        patchZip doms olds news ++ (news.drop olds.length).filterMap createElement ∧
      ((news.drop olds.length).filterMap createElement).length ≤
        news.length - olds.length ∧
      ((∀ c ∈ news.drop olds.length, (createElement c).isSome = true) →
        ((news.drop olds.length).filterMap createElement).length =
          news.length - olds.length)) ∧
    (news.length < olds.length →
      patchChildren doms olds news = (patchZip doms olds news).take news.length ∧
      (patchChildren doms olds news).length = news.length) ∧
    (∀ i d o nn, i < min olds.length news.length →
      doms[i]? = some d → olds[i]? = some o → news[i]? = some nn →
      (patchChildren doms olds news)[i]? = some (patchElement d o nn)) := by
  refine ⟨?_, ?_, ?_, ?_⟩
  · intro he
    have h1 : ¬ news.length > olds.length := by omega
    have h2 : ¬ olds.length > news.length := by omega
    simp [patchChildren, h1, h2]
  · intro hlt
    have h2 : ¬ olds.length > news.length := by omega
    refine ⟨by simp [patchChildren, hlt, h2], ?_, ?_⟩
    · calc ((news.drop olds.length).filterMap createElement).length
          ≤ (news.drop olds.length).length := List.length_filterMap_le _ _
        _ = news.length - olds.length := List.length_drop _ _
    · intro hall
      rw [filterMap_length_of_isSome _ _ hall, List.length_drop]
  · intro hlt
    have h1 : ¬ news.length > olds.length := by omega
    have heq : patchChildren doms olds news =
        (patchZip doms olds news).take news.length := by
      simp only [patchChildren, if_neg h1, gt_iff_lt, if_pos hlt]
      rw [removeLoop_eq]
      have hsum : news.length + (olds.length - news.length) = olds.length := by omega
      rw [hsum]
      have hnil : (patchZip doms olds news).drop olds.length = [] := by
        apply List.drop_eq_nil_of_le
        rw [patchZip_length, hlen]
      rw [hnil, List.append_nil]
    refine ⟨heq, ?_⟩
    rw [heq, List.length_take, patchZip_length, hlen,
      Nat.min_eq_left (Nat.le_of_lt hlt)]
  · intro i d o nn hi hd ho hn
    have hz := patchZip_getElem doms olds news i d o nn hd ho hn
    rcases Nat.lt_trichotomy olds.length news.length with hc | hc | hc
    · have h2 : ¬ olds.length > news.length := by omega
      have hilt : i < (patchZip doms olds news).length := by
        rw [patchZip_length, hlen]
        omega
      simp only [patchChildren, gt_iff_lt, if_pos hc, if_neg h2]
      rw [List.getElem?_append_left hilt, hz]
    · have h1 : ¬ news.length > olds.length := by omega
      have h2 : ¬ olds.length > news.length := by omega
      simp only [patchChildren, gt_iff_lt, if_neg h1, if_neg h2]
      exact hz
    · have h1 : ¬ news.length > olds.length := by omega
      simp only [patchChildren, gt_iff_lt, if_neg h1, if_pos hc]
      rw [removeLoop_eq]
      have hsum : news.length + (olds.length - news.length) = olds.length := by omega
      rw [hsum]
      have hnil : (patchZip doms olds news).drop olds.length = [] := by
        apply List.drop_eq_nil_of_le
        rw [patchZip_length, hlen]
      rw [hnil, List.append_nil, List.getElem?_take, if_pos (by omega : i < news.length),
        hz]

/-- Claim C7, witness for the amended theorem at a concrete input: one
native paragraph matching one old child, patched against two new
children. -/
theorem C7_witness :
    ([DNode.elem "p" [] [] "" "" false []] : List DNode).length =
      ([VNode.mk "p" [] [] "" none ""] : List VNode).length ∧
    ((([VNode.mk "p" [] [] "" none ""] : List VNode).length =
        ([VNode.mk "p" [] [] "" none "", VNode.mk "p" [] [] "q" none ""] :
          List VNode).length →
      patchChildren [DNode.elem "p" [] [] "" "" false []]
          [VNode.mk "p" [] [] "" none ""]
          [VNode.mk "p" [] [] "" none "", VNode.mk "p" [] [] "q" none ""] =
        patchZip [DNode.elem "p" [] [] "" "" false []]
          [VNode.mk "p" [] [] "" none ""]
          [VNode.mk "p" [] [] "" none "", VNode.mk "p" [] [] "q" none ""]) ∧
    (([VNode.mk "p" [] [] "" none ""] : List VNode).length <
        ([VNode.mk "p" [] [] "" none "", VNode.mk "p" [] [] "q" none ""] :
          List VNode).length →
      patchChildren [DNode.elem "p" [] [] "" "" false []]
          [VNode.mk "p" [] [] "" none ""]
          [VNode.mk "p" [] [] "" none "", VNode.mk "p" [] [] "q" none ""] =
        patchZip [DNode.elem "p" [] [] "" "" false []]
          [VNode.mk "p" [] [] "" none ""]
          [VNode.mk "p" [] [] "" none "", VNode.mk "p" [] [] "q" none ""] ++
          (([VNode.mk "p" [] [] "" none "", VNode.mk "p" [] [] "q" none ""] :
            List VNode).drop
              ([VNode.mk "p" [] [] "" none ""] : List VNode).length).filterMap
            createElement ∧
      ((([VNode.mk "p" [] [] "" none "", VNode.mk "p" [] [] "q" none ""] :
          List VNode).drop
            ([VNode.mk "p" [] [] "" none ""] : List VNode).length).filterMap
          createElement).length ≤
        ([VNode.mk "p" [] [] "" none "", VNode.mk "p" [] [] "q" none ""] :
          List VNode).length -
          ([VNode.mk "p" [] [] "" none ""] : List VNode).length ∧
      ((∀ c ∈ ([VNode.mk "p" [] [] "" none "", VNode.mk "p" [] [] "q" none ""] :
          List VNode).drop
            ([VNode.mk "p" [] [] "" none ""] : List VNode).length,
          (createElement c).isSome = true) →
        ((([VNode.mk "p" [] [] "" none "", VNode.mk "p" [] [] "q" none ""] :
            List VNode).drop
              ([VNode.mk "p" [] [] "" none ""] : List VNode).length).filterMap
            createElement).length =
          ([VNode.mk "p" [] [] "" none "", VNode.mk "p" [] [] "q" none ""] :
            List VNode).length -
            ([VNode.mk "p" [] [] "" none ""] : List VNode).length)) ∧
    (([VNode.mk "p" [] [] "" none "", VNode.mk "p" [] [] "q" none ""] :
        List VNode).length <
        ([VNode.mk "p" [] [] "" none ""] : List VNode).length →
      patchChildren [DNode.elem "p" [] [] "" "" false []]
          [VNode.mk "p" [] [] "" none ""]
          [VNode.mk "p" [] [] "" none "", VNode.mk "p" [] [] "q" none ""] =
        (patchZip [DNode.elem "p" [] [] "" "" false []]
          [VNode.mk "p" [] [] "" none ""]
          [VNode.mk "p" [] [] "" none "", VNode.mk "p" [] [] "q" none ""]).take
          ([VNode.mk "p" [] [] "" none "", VNode.mk "p" [] [] "q" none ""] :
            List VNode).length ∧
      (patchChildren [DNode.elem "p" [] [] "" "" false []]
          [VNode.mk "p" [] [] "" none ""]
          [VNode.mk "p" [] [] "" none "", VNode.mk "p" [] [] "q" none ""]).length =
        ([VNode.mk "p" [] [] "" none "", VNode.mk "p" [] [] "q" none ""] :
          List VNode).length) ∧
    (∀ i d o nn,
      i < min ([VNode.mk "p" [] [] "" none ""] : List VNode).length
          ([VNode.mk "p" [] [] "" none "", VNode.mk "p" [] [] "q" none ""] :
            List VNode).length →
      ([DNode.elem "p" [] [] "" "" false []] : List DNode)[i]? = some d →
      ([VNode.mk "p" [] [] "" none ""] : List VNode)[i]? = some o →
      ([VNode.mk "p" [] [] "" none "", VNode.mk "p" [] [] "q" none ""] :
        List VNode)[i]? = some nn →
      (patchChildren [DNode.elem "p" [] [] "" "" false []]
          [VNode.mk "p" [] [] "" none ""]
          [VNode.mk "p" [] [] "" none "", VNode.mk "p" [] [] "q" none ""])[i]? =
        some (patchElement d o nn))) :=
  ⟨rfl, C7_theorem [DNode.elem "p" [] [] "" "" false []]
    [VNode.mk "p" [] [] "" none ""]
    [VNode.mk "p" [] [] "" none "", VNode.mk "p" [] [] "q" none ""] rfl⟩

theorem assocFind_filter_ne {ν : Type} (m : List (String × ν)) (k : String) :
    assocFind (m.filter (fun p => p.1 != k)) k = none := by
  induction m with
  | nil => rfl
  | cons p rest ih =>
    by_cases hk : p.1 = k
    · simp [List.filter_cons, hk, ih]
    · simp [List.filter_cons, hk, assocFind_cons, ih]

/-- Claim C10.  For every `NewVNode(tag, attrs, children, content)` call
whose attribute map binds "onClick" to a value of Go type `func()`: the
node's `OnClick` field becomes that function and the "onClick" entry is
deleted from the map the node carries (the same caller map, mutated in
place in the source), so the returned node's attribute map holds no
"onClick" entry; for a value of any other type the map is left untouched
and `OnClick` is nil. -/
theorem C10_theorem (tag : String) (attributes : AttrMap) (children : List VNode)
    (content : String) :
    (∀ i, assocFind attributes "onClick" = some (AttrVal.fn0 i) →
      (NewVNode tag attributes children content).onClick = some i ∧
      assocFind (NewVNode tag attributes children content).attrs "onClick" = none ∧
      (NewVNode tag attributes children content).attrs =
        attributes.filter (fun p => p.1 != "onClick")) ∧
    (∀ v, assocFind attributes "onClick" = some v → (∀ i, v ≠ AttrVal.fn0 i) →
      (NewVNode tag attributes children content).attrs = attributes ∧
      (NewVNode tag attributes children content).onClick = none) := by
  constructor
  · intro i hfind
    rw [NewVNode, hfind]
    exact ⟨rfl, assocFind_filter_ne attributes "onClick", rfl⟩
  · intro v hfind hnot
    rw [NewVNode, hfind]
    cases v with
    | fn0 i => exact absurd rfl (hnot i)
    | str s => exact ⟨rfl, rfl⟩
    | boolean b => exact ⟨rfl, rfl⟩
    | handler i => exact ⟨rfl, rfl⟩

/-- Claim C10, witness at a concrete input: an attribute map carrying an
"onClick" callback of type `func()` and one ordinary attribute. -/
theorem C10_witness :
    assocFind [("onClick", AttrVal.fn0 7), ("x", AttrVal.str "1")] "onClick" =
      some (AttrVal.fn0 7) ∧
    ((NewVNode "button" [("onClick", AttrVal.fn0 7), ("x", AttrVal.str "1")]
        [] "go").onClick = some 7 ∧
     assocFind (NewVNode "button" [("onClick", AttrVal.fn0 7), ("x", AttrVal.str "1")]
        [] "go").attrs "onClick" = none ∧
     (NewVNode "button" [("onClick", AttrVal.fn0 7), ("x", AttrVal.str "1")]
        [] "go").attrs =
       ([("onClick", AttrVal.fn0 7), ("x", AttrVal.str "1")] : AttrMap).filter
         (fun p => p.1 != "onClick")) :=
  ⟨rfl, ( C10_theorem "button" [("onClick", AttrVal.fn0 7), ("x", AttrVal.str "1")]
    [] "go").1 7 rfl⟩

theorem assocFind_append_of_isSome {κ ν : Type} [DecidableEq κ]
    (m m2 : List (κ × ν)) (k : κ) (h : (assocFind m k).isSome = true) :
    assocFind (m ++ m2) k = assocFind m k := by
  induction m with
  | nil => simp at h
  | cons p rest ih =>
    by_cases hk : p.1 = k
    · simp [assocFind_cons, hk]
    · rw [assocFind_cons, if_neg hk] at h
      simp [assocFind_cons, hk, ih h]

theorem assocFind_append_of_none {κ ν : Type} [DecidableEq κ]
    (m m2 : List (κ × ν)) (k : κ) (h : assocFind m k = none) :
    assocFind (m ++ m2) k = assocFind m2 k := by
  induction m with
  | nil => simp
  | cons p rest ih =>
    rw [assocFind_cons] at h
    by_cases hk : p.1 = k
    · rw [if_pos hk] at h
      exact absurd h (by simp)
    · rw [if_neg hk] at h
      simp [assocFind_cons, hk, ih h]

theorem assocFind_none_of_notMem' {κ ν : Type} [DecidableEq κ]
    (m : List (κ × ν)) (k : κ) (h : assocFind m k = none) :
    k ∉ m.map Prod.fst := by
  induction m with
  | nil => simp
  | cons p rest ih =>
    rw [assocFind_cons] at h
    by_cases hk : p.1 = k
    · rw [if_pos hk] at h
      exact absurd h (by simp)
    · rw [if_neg hk] at h
      simp only [List.map_cons, List.mem_cons, not_or]
      exact ⟨fun he => hk he.symm, ih h⟩

theorem assocFind_some_mem {κ ν : Type} [DecidableEq κ]
    (m : List (κ × ν)) (k : κ) (v : ν) (h : assocFind m k = some v) :
    (k, v) ∈ m := by
  induction m with
  | nil => simp at h
  | cons p rest ih =>
    rw [assocFind_cons] at h
    by_cases hk : p.1 = k
    · rw [if_pos hk] at h
      have : p = (k, v) := by
        cases p
        simp only [Option.some_inj] at h
        simp_all
      simp [this]
    · rw [if_neg hk] at h
      exact List.mem_cons_of_mem p (ih h)

theorem assocFind_filter_key {κ ν : Type} [DecidableEq κ]
    (m : List (κ × ν)) (pr : κ → Bool) (k : κ) :
    assocFind (m.filter (fun p => pr p.1)) k =
      (if pr k = true then assocFind m k else none) := by
  induction m with
  | nil => simp
  | cons p rest ih =>
    by_cases hk : p.1 = k
    · subst hk
      by_cases hp : pr p.1 = true
      · simp [List.filter_cons, hp, assocFind_cons, ih]
      · simp [List.filter_cons, hp, assocFind_cons, ih]
    · by_cases hp : pr p.1 = true
      · simp [List.filter_cons, hp, assocFind_cons, hk, ih]
      · simp [List.filter_cons, hp, assocFind_cons, hk, ih]

theorem nodupKeys_append_singleton {κ ν : Type} (m : List (κ × ν)) (k : κ) (v : ν)
    (h : nodupKeys m) (hn : k ∉ m.map Prod.fst) : nodupKeys (m ++ [(k, v)]) := by
  unfold nodupKeys at h ⊢
  rw [List.map_append]
  simp [List.nodup_append, h, hn]

theorem nodupKeys_filter {κ ν : Type} (m : List (κ × ν)) (p : κ × ν → Bool)
    (h : nodupKeys m) : nodupKeys (m.filter p) :=
  h.sublist (List.Sublist.map _ (List.filter_sublist m))

theorem contains_insertKey (l : List String) (k2 k : String) :
    (insertKey l k2).contains k = (l.contains k || k == k2) := by
  unfold insertKey
  by_cases h : l.contains k2 = true
  · rw [if_pos h]
    by_cases hk : k = k2
    · subst hk
      rw [h]
      simp
    · simp [hk]
  · rw [if_neg h]
    by_cases hk : k = k2 <;>
      simp [List.contains_eq_any_beq, List.any_append, hk]

theorem contains_filter_not (l sk : List String) (K : String)
    (h : sk.contains K = true) :
    (l.filter (fun k => !(sk.contains k))).contains K = false := by
  have hnot : K ∉ l.filter (fun k => !(sk.contains k)) := by
    intro hmem
    have hp := (List.mem_filter.mp hmem).2
    rw [h] at hp
    simp at hp
  simpa using hnot

theorem countUnmountFor_append (a b : List REvent) (K : String) :
    countUnmountFor (a ++ b) K = countUnmountFor a K + countUnmountFor b K := by
  simp [countUnmountFor, List.filter_append]

@[simp] theorem countUnmountFor_nil (K : String) : countUnmountFor [] K = 0 := rfl

theorem countUnmountFor_eq_zero (evs : List REvent) (K : String)
    (h : ∀ i k, REvent.unmountCall i k ∈ evs → k ≠ K) :
    countUnmountFor evs K = 0 := by
  induction evs with
  | nil => rfl
  | cons e rest ih =>
    have htl : ∀ i k, REvent.unmountCall i k ∈ rest → k ≠ K := by
      intro i k hk
      exact h i k (List.mem_cons_of_mem e hk)
    have htl2 := ih htl
    cases e with
    | unmountCall i k =>
      have hk : k ≠ K := h i k (List.mem_cons_self _ _)
      simpa [countUnmountFor, List.filter_cons, hk] using htl2
    | mountCall i k => simpa [countUnmountFor, List.filter_cons] using htl2
    | paramsCall i k => simpa [countUnmountFor, List.filter_cons] using htl2
    | applyPropsCall t c => simpa [countUnmountFor, List.filter_cons] using htl2
    | renderCall i => simpa [countUnmountFor, List.filter_cons] using htl2
    | clearMount => simpa [countUnmountFor, List.filter_cons] using htl2
    | renderFresh => simpa [countUnmountFor, List.filter_cons] using htl2
    | patchDom => simpa [countUnmountFor, List.filter_cons] using htl2

theorem renderChild_reuse (stack : List Comp) (key : String) (cand : Comp)
    (s : RState) (I : Comp)
    (h : assocFind s.instances (globalKeyOf stack key) = some I) :
    renderChild stack key cand s =
      ({ s with activeKeys := insertKey s.activeKeys (globalKeyOf stack key) },
       (if I.propUpdater = true then [REvent.applyPropsCall I.id cand.id] else []) ++
         (if I.paramReceiver = true then
            [REvent.paramsCall I.id (globalKeyOf stack key)] else []) ++
         [REvent.renderCall I.id],
       I) := by
  simp only [renderChild, h]

theorem renderChild_fresh (stack : List Comp) (key : String) (cand : Comp)
    (s : RState)
    (h : assocFind s.instances (globalKeyOf stack key) = none) :
    renderChild stack key cand s =
      ({ s with activeKeys := insertKey s.activeKeys (globalKeyOf stack key),
                instances := s.instances ++ [(globalKeyOf stack key, cand)],
                initialized := insertKey s.initialized (globalKeyOf stack key) },
       (if cand.mountable = true then
          [REvent.mountCall cand.id (globalKeyOf stack key)] else []) ++
         (if cand.paramReceiver = true then
            [REvent.paramsCall cand.id (globalKeyOf stack key)] else []) ++
         [REvent.renderCall cand.id],
       cand) := by
  simp only [renderChild, h]

theorem renderChild_find_preserved (stack : List Comp) (key : String) (cand : Comp)
    (s : RState) (k : String) (I : Comp)
    (h : assocFind s.instances k = some I) :
    assocFind (renderChild stack key cand s).1.instances k = some I := by
  cases hgk : assocFind s.instances (globalKeyOf stack key) with
  | some J =>
    rw [renderChild_reuse stack key cand s J hgk]
    exact h
  | none =>
    rw [renderChild_fresh stack key cand s hgk]
    simp only
    rw [assocFind_append_of_isSome _ _ _ (by rw [h]; rfl)]
    exact h

theorem renderChild_registered (stack : List Comp) (key : String) (cand : Comp)
    (s : RState) :
    (assocFind (renderChild stack key cand s).1.instances
      (globalKeyOf stack key)).isSome = true := by
  cases hgk : assocFind s.instances (globalKeyOf stack key) with
  | some J =>
    rw [renderChild_reuse stack key cand s J hgk]
    simp only
    rw [hgk]
    rfl
  | none =>
    rw [renderChild_fresh stack key cand s hgk]
    simp only
    rw [assocFind_append_of_none _ _ _ hgk]
    simp [assocFind_cons]

theorem renderChild_activeKeys (stack : List Comp) (key : String) (cand : Comp)
    (s : RState) :
    (renderChild stack key cand s).1.activeKeys =
      insertKey s.activeKeys (globalKeyOf stack key) := by
  cases hgk : assocFind s.instances (globalKeyOf stack key) with
  | some J => rw [renderChild_reuse stack key cand s J hgk]
  | none => rw [renderChild_fresh stack key cand s hgk]

theorem renderChild_no_unmount (stack : List Comp) (key : String) (cand : Comp)
    (s : RState) (K : String) :
    countUnmountFor (renderChild stack key cand s).2.1 K = 0 := by
  apply countUnmountFor_eq_zero
  intro i k hmem
  cases hgk : assocFind s.instances (globalKeyOf stack key) with
  | some J =>
    rw [renderChild_reuse stack key cand s J hgk] at hmem
    by_cases h1 : J.propUpdater = true <;>
      by_cases h2 : J.paramReceiver = true <;>
      simp [h1, h2] at hmem
  | none =>
    rw [renderChild_fresh stack key cand s hgk] at hmem
    by_cases h1 : cand.mountable = true <;>
      by_cases h2 : cand.paramReceiver = true <;>
      simp [h1, h2] at hmem

theorem renderChild_nodup (stack : List Comp) (key : String) (cand : Comp)
    (s : RState) (h : nodupKeys s.instances) :
    nodupKeys (renderChild stack key cand s).1.instances := by
  cases hgk : assocFind s.instances (globalKeyOf stack key) with
  | some J =>
    rw [renderChild_reuse stack key cand s J hgk]
    exact h
  | none =>
    rw [renderChild_fresh stack key cand s hgk]
    exact nodupKeys_append_singleton _ _ _ h
      (assocFind_none_of_notMem' _ _ hgk)

theorem runResolutions_find_preserved (calls : List ChildCall) (s : RState)
    (k : String) (I : Comp) (h : assocFind s.instances k = some I) :
    assocFind (runResolutions calls s).1.instances k = some I := by
  induction calls generalizing s with
  | nil => exact h
  | cons cc rest ih =>
    simp only [runResolutions]
    exact ih _ (renderChild_find_preserved cc.stack cc.key cc.cand s k I h)

theorem runResolutions_activeKeys (calls : List ChildCall) (s : RState)
    (k : String) :
    (runResolutions calls s).1.activeKeys.contains k =
      (s.activeKeys.contains k || resolvesKey calls k) := by
  induction calls generalizing s with
  | nil => simp [runResolutions, resolvesKey]
  | cons cc rest ih =>
    simp only [runResolutions, resolvesKey, List.any_cons]
    rw [ih, renderChild_activeKeys, contains_insertKey]
    by_cases hk : k = globalKeyOf cc.stack cc.key
    · subst hk
      simp [resolvesKey]
    · have h1 : (k == globalKeyOf cc.stack cc.key) = false := by simp [hk]
      have h2 : (globalKeyOf cc.stack cc.key == k) = false := by
        simp only [beq_eq_false_iff_ne, ne_eq]
        exact fun he => hk he.symm
      simp [h1, h2, resolvesKey]

theorem runResolutions_no_unmount (calls : List ChildCall) (s : RState)
    (K : String) :
    countUnmountFor (runResolutions calls s).2.1 K = 0 := by
  induction calls generalizing s with
  | nil => rfl
  | cons cc rest ih =>
    simp only [runResolutions]
    rw [countUnmountFor_append, renderChild_no_unmount, ih]

theorem runResolutions_registered (calls : List ChildCall) (s : RState)
    (K : String) (h : resolvesKey calls K = true) :
    (assocFind (runResolutions calls s).1.instances K).isSome = true := by
  induction calls generalizing s with
  | nil => simp [resolvesKey] at h
  | cons cc rest ih =>
    simp only [resolvesKey, List.any_cons, Bool.or_eq_true] at h
    rcases h with h | h
    · have hk : globalKeyOf cc.stack cc.key = K := by simpa using h
      have hreg := renderChild_registered cc.stack cc.key cc.cand s
      rw [hk] at hreg
      obtain ⟨I, hI⟩ := Option.isSome_iff_exists.mp hreg
      simp only [runResolutions]
      rw [runResolutions_find_preserved rest _ K I hI]
      rfl
    · simp only [runResolutions]
      exact ih _ h

theorem runResolutions_nodup (calls : List ChildCall) (s : RState)
    (h : nodupKeys s.instances) :
    nodupKeys (runResolutions calls s).1.instances := by
  induction calls generalizing s with
  | nil => exact h
  | cons cc rest ih =>
    simp only [runResolutions]
    exact ih _ (renderChild_nodup cc.stack cc.key cc.cand s h)

theorem runResolutions_results (calls : List ChildCall) (s : RState)
    (K : String) (I : Comp) (h : assocFind s.instances K = some I) :
    ∀ (j : Nat) (cc : ChildCall), calls[j]? = some cc →
      globalKeyOf cc.stack cc.key = K →
      (runResolutions calls s).2.2[j]? = some I := by
  induction calls generalizing s with
  | nil =>
    intro j cc hj
    simp at hj
  | cons cc0 rest ih =>
    intro j cc hj hk
    cases j with
    | zero =>
      simp only [List.getElem?_cons_zero, Option.some_inj] at hj
      subst hj
      have hgk : assocFind s.instances (globalKeyOf cc0.stack cc0.key) = some I := by
        rw [hk]
        exact h
      simp only [runResolutions]
      rw [renderChild_reuse cc0.stack cc0.key cc0.cand s I hgk]
      simp
    | succ j2 =>
      simp only [List.getElem?_cons_succ] at hj
      simp only [runResolutions]
      rw [List.getElem?_cons_succ]
      exact ih (renderChild cc0.stack cc0.key cc0.cand s).1
        (renderChild_find_preserved cc0.stack cc0.key cc0.cand s K I h) j2 cc hj hk

theorem cleanupEvs_zero (m : List (String × Comp)) (act : List String) (K : String)
    (h : K ∉ m.map Prod.fst) :
    countUnmountFor ((m.filter (fun p => !(act.contains p.1))).filterMap
      (fun p => if p.2.unmountable = true
        then some (REvent.unmountCall p.2.id p.1) else none)) K = 0 := by
  apply countUnmountFor_eq_zero
  intro i k hmem
  obtain ⟨p, hp, hpe⟩ := List.mem_filterMap.mp hmem
  have hpm : p ∈ m := (List.mem_filter.mp hp).1
  by_cases hu : p.2.unmountable = true
  · rw [if_pos hu] at hpe
    have hk : p.1 = k := by
      simpa using congrArg (fun e =>
        match e with
        | REvent.unmountCall _ k2 => k2
        | _ => "") hpe
    intro hkK
    subst hkK
    exact h (hk ▸ List.mem_map_of_mem Prod.fst hpm)
  · rw [if_neg hu] at hpe
    exact absurd hpe (by simp)

theorem cleanupEvs_count (m : List (String × Comp)) (act : List String) (K : String)
    (I : Comp) (hnd : nodupKeys m) (hI : assocFind m K = some I)
    (h : act.contains K = false) :
    countUnmountFor ((m.filter (fun p => !(act.contains p.1))).filterMap
      (fun p => if p.2.unmountable = true
        then some (REvent.unmountCall p.2.id p.1) else none)) K =
      (if I.unmountable = true then 1 else 0) := by
  induction m with
  | nil => simp at hI
  | cons p rest ih =>
    have hnd2 : p.1 ∉ rest.map Prod.fst ∧ nodupKeys rest := by
      simpa [nodupKeys] using hnd
    rw [assocFind_cons] at hI
    by_cases hk : p.1 = K
    · rw [if_pos hk] at hI
      have hIp : p.2 = I := by simpa using hI
      have hzero := cleanupEvs_zero rest act K (by rw [← hk]; exact hnd2.1)
      rw [List.filter_cons]
      have hkeep : (!(act.contains p.1)) = true := by
        rw [hk, h]
        rfl
      rw [if_pos hkeep, List.filterMap_cons]
      by_cases hu : p.2.unmountable = true
      · rw [if_pos hu]
        have hbk : (p.1 == K) = true := by simp [hk]
        have hzero2 : (List.filter (fun e =>
            match e with
            | REvent.unmountCall _ k => k == K
            | _ => false)
            ((rest.filter (fun p => !(act.contains p.1))).filterMap
              (fun p => if p.2.unmountable = true
                then some (REvent.unmountCall p.2.id p.1) else none))).length = 0 :=
          hzero
        have hpred : (fun e =>
            match e with
            | REvent.unmountCall _ k => k == K
            | _ => false) (REvent.unmountCall p.2.id p.1) = true := hbk
        rw [countUnmountFor, List.filter_cons, if_pos hpred, List.length_cons, hzero2,
          if_pos (show I.unmountable = true from hIp ▸ hu)]
      · rw [if_neg hu, if_neg (by rw [← hIp]; exact hu)]
        exact hzero
    · rw [if_neg hk] at hI
      have htail := ih hnd2.2 hI
      rw [List.filter_cons]
      by_cases hkeep : (!(act.contains p.1)) = true
      · rw [if_pos hkeep, List.filterMap_cons]
        by_cases hu : p.2.unmountable = true
        · rw [if_pos hu]
          have hbk : (p.1 == K) = false := by simp [hk]
          rw [countUnmountFor, List.filter_cons]
          simp only [hbk]
          exact htail
        · rw [if_neg hu]
          exact htail
      · rw [if_neg hkeep]
        exact htail

theorem cleanup_active (s : RState) (K : String)
    (h : s.activeKeys.contains K = true) :
    assocFind (cleanup s).1.instances K = assocFind s.instances K ∧
    countUnmountFor (cleanup s).2 K = 0 := by
  constructor
  · show assocFind (s.instances.filter (fun p => s.activeKeys.contains p.1)) K = _
    rw [assocFind_filter_key s.instances (fun k => s.activeKeys.contains k) K,
      if_pos h]
  · apply countUnmountFor_eq_zero
    intro i k hmem
    simp only [cleanup] at hmem
    obtain ⟨p, hp, hpe⟩ := List.mem_filterMap.mp hmem
    have hpa : (!(s.activeKeys.contains p.1)) = true := (List.mem_filter.mp hp).2
    by_cases hu : p.2.unmountable = true
    · rw [if_pos hu] at hpe
      have hk : p.1 = k := by
        simpa using congrArg (fun e =>
          match e with
          | REvent.unmountCall _ k2 => k2
          | _ => "") hpe
      intro hkK
      subst hkK
      rw [hk, h] at hpa
      simp at hpa
    · rw [if_neg hu] at hpe
      exact absurd hpe (by simp)

theorem cleanup_stale (s : RState) (K : String) (I : Comp)
    (hnd : nodupKeys s.instances)
    (hI : assocFind s.instances K = some I)
    (h : s.activeKeys.contains K = false) :
    countUnmountFor (cleanup s).2 K = (if I.unmountable = true then 1 else 0) ∧
    assocFind (cleanup s).1.instances K = none ∧
    (cleanup s).1.initialized.contains K = false := by
  refine ⟨?_, ?_, ?_⟩
  · exact cleanupEvs_count s.instances s.activeKeys K I hnd hI h
  · show assocFind (s.instances.filter (fun p => s.activeKeys.contains p.1)) K = _
    rw [assocFind_filter_key s.instances (fun k => s.activeKeys.contains k) K,
      if_neg (by rw [h]; simp)]
  · have hmem : (K, I) ∈ s.instances := assocFind_some_mem _ _ _ hI
    have hstale : (K, I) ∈ s.instances.filter
        (fun p => !(s.activeKeys.contains p.1)) := by
      refine List.mem_filter.mpr ⟨hmem, ?_⟩
      rw [h]
      rfl
    have hsk : ((s.instances.filter
        (fun p => !(s.activeKeys.contains p.1))).map Prod.fst).contains K = true := by
      have : K ∈ (s.instances.filter
          (fun p => !(s.activeKeys.contains p.1))).map Prod.fst :=
        List.mem_map_of_mem Prod.fst hstale
      simpa using this
    exact contains_filter_not s.initialized _ K hsk

theorem cleanup_nodup (s : RState) (h : nodupKeys s.instances) :
    nodupKeys (cleanup s).1.instances :=
  nodupKeys_filter _ _ h

theorem cleanup_activeKeys (s : RState) : (cleanup s).1.activeKeys = [] := rfl

theorem renderPass_resolved (calls : List ChildCall) (s : RState) (K : String)
    (hnd : nodupKeys s.instances) (hres : resolvesKey calls K = true) :
    nodupKeys (renderPass calls s).1.instances ∧
    (assocFind (renderPass calls s).1.instances K).isSome = true ∧
    countUnmountFor (renderPass calls s).2.1 K = 0 ∧
    countUnmountFor (renderPass calls s).2.2.1 K = 0 ∧
    (∀ I, assocFind s.instances K = some I →
      assocFind (renderPass calls s).1.instances K = some I) := by
  have hnd0 : nodupKeys (RState.instances { s with activeKeys := [] }) := hnd
  have hact : (runResolutions calls { s with activeKeys := [] }).1.activeKeys.contains
      K = true := by
    rw [runResolutions_activeKeys]
    simp [hres]
  have hreg := runResolutions_registered calls { s with activeKeys := [] } K hres
  obtain ⟨J, hJ⟩ := Option.isSome_iff_exists.mp hreg
  have hclean := cleanup_active (runResolutions calls { s with activeKeys := [] }).1 K hact
  simp only [renderPass]
  refine ⟨?_, ?_, ?_, ?_, ?_⟩
  · exact cleanup_nodup _ (runResolutions_nodup calls _ hnd0)
  · rw [hclean.1, hJ]
    rfl
  · exact runResolutions_no_unmount calls _ K
  · exact hclean.2
  · intro I hI
    have hpres : assocFind (runResolutions calls
        { s with activeKeys := [] }).1.instances K = some I :=
      runResolutions_find_preserved calls _ K I hI
    rw [hclean.1, hpres]

theorem renderPass_unresolved (calls : List ChildCall) (s : RState) (K : String)
    (I : Comp) (hnd : nodupKeys s.instances)
    (hI : assocFind s.instances K = some I)
    (hres : resolvesKey calls K = false) :
    countUnmountFor (renderPass calls s).2.1 K = 0 ∧
    countUnmountFor (renderPass calls s).2.2.1 K =
      (if I.unmountable = true then 1 else 0) ∧
    assocFind (renderPass calls s).1.instances K = none ∧
    (renderPass calls s).1.initialized.contains K = false := by
  have hIafter : assocFind (runResolutions calls
      { s with activeKeys := [] }).1.instances K = some I :=
    runResolutions_find_preserved calls _ K I hI
  have hact : (runResolutions calls { s with activeKeys := [] }).1.activeKeys.contains
      K = false := by
    rw [runResolutions_activeKeys]
    simp [hres]
  have hnd2 : nodupKeys (runResolutions calls
      { s with activeKeys := [] }).1.instances :=
    runResolutions_nodup calls _ hnd
  have hst := cleanup_stale (runResolutions calls
    { s with activeKeys := [] }).1 K I hnd2 hIafter hact
  simp only [renderPass]
  exact ⟨runResolutions_no_unmount calls _ K, hst.1, hst.2.1, hst.2.2⟩

theorem runPasses_reg (passes : List (List ChildCall)) (s : RState) (K : String)
    (hnd : nodupKeys s.instances)
    (hres : ∀ c ∈ passes, resolvesKey c K = true) :
    nodupKeys (runPasses passes s).1.instances ∧
    (∀ entry ∈ (runPasses passes s).2,
      countUnmountFor entry.1 K = 0 ∧ countUnmountFor entry.2.1 K = 0) ∧
    ((passes ≠ [] ∨ (assocFind s.instances K).isSome = true) →
      (assocFind (runPasses passes s).1.instances K).isSome = true) := by
  induction passes generalizing s with
  | nil =>
    refine ⟨hnd, by simp [runPasses], ?_⟩
    rintro (h | h)
    · exact absurd rfl h
    · exact h
  | cons c rest ih =>
    have hres0 : resolvesKey c K = true := hres c (List.mem_cons_self _ _)
    have hresRest : ∀ c2 ∈ rest, resolvesKey c2 K = true :=
      fun c2 hc => hres c2 (List.mem_cons_of_mem _ hc)
    have hp := renderPass_resolved c s K hnd hres0
    have hih := ih (renderPass c s).1 hp.1 hresRest
    simp only [runPasses]
    refine ⟨hih.1, ?_, ?_⟩
    · intro entry hentry
      rw [List.mem_cons] at hentry
      rcases hentry with he | he
      · subst he
        exact ⟨hp.2.2.1, hp.2.2.2.1⟩
      · exact hih.2.1 entry he
    · intro _
      exact hih.2.2 (Or.inr hp.2.1)

theorem runPasses_stable (passes : List (List ChildCall)) (s : RState) (K : String)
    (I : Comp) (hnd : nodupKeys s.instances)
    (hI : assocFind s.instances K = some I)
    (hres : ∀ c ∈ passes, resolvesKey c K = true) :
    assocFind (runPasses passes s).1.instances K = some I ∧
    nodupKeys (runPasses passes s).1.instances ∧
    (∀ (pi : Nat) (calls : List ChildCall) (j : Nat) (cc : ChildCall),
      passes[pi]? = some calls → calls[j]? = some cc →
      globalKeyOf cc.stack cc.key = K →
      ∃ entry, (runPasses passes s).2[pi]? = some entry ∧
        entry.2.2[j]? = some I) := by
  induction passes generalizing s with
  | nil =>
    refine ⟨hI, hnd, ?_⟩
    intro pi calls j cc hpi
    simp at hpi
  | cons c rest ih =>
    have hres0 := hres c (List.mem_cons_self _ _)
    have hresRest : ∀ c2 ∈ rest, resolvesKey c2 K = true :=
      fun c2 hc => hres c2 (List.mem_cons_of_mem _ hc)
    have hp := renderPass_resolved c s K hnd hres0
    have hIp : assocFind (renderPass c s).1.instances K = some I :=
      hp.2.2.2.2 I hI
    have hih := ih (renderPass c s).1 hp.1 hIp hresRest
    simp only [runPasses]
    refine ⟨hih.1, hih.2.1, ?_⟩
    intro pi calls j cc hpi hj hk
    cases pi with
    | zero =>
      simp only [List.getElem?_cons_zero, Option.some_inj] at hpi
      subst hpi
      refine ⟨((renderPass c s).2.1, (renderPass c s).2.2.1,
        (renderPass c s).2.2.2), by simp, ?_⟩
      show (renderPass c s).2.2.2[j]? = some I
      simp only [renderPass]
      exact runResolutions_results c { s with activeKeys := [] } K I hI j cc hj hk
    | succ pi2 =>
      simp only [List.getElem?_cons_succ] at hpi
      obtain ⟨entry, he1, he2⟩ := hih.2.2 pi2 calls j cc hpi hj hk
      refine ⟨entry, ?_, he2⟩
      rw [List.getElem?_cons_succ]
      exact he1

/-- Claim C2, divergence evaluation.  Scenario: the previous root pass
retained a tree stamped with scope identity "A" (produced by the prior root
instance, identity 1, which the renderer no longer references); navigation
swapped the active root to instance 2 with key "B".  The pass discards the
native content and materializes fresh (clear + fresh render, no incremental
patch) and clears the initialization bookkeeping — as the claim states —
but the unmount hook invocation it performs targets the incoming root
instance 2, not the prior (outgoing) root instance: the event list contains
`unmountCall 2 "__root__"` and no event for instance 1, because the source
calls `OnUnmount` on `r.currentComponent`, which at that point already
holds the new root (its own comment says "old root component"). -/
theorem C2_theorem :
    renderRoot (fun _ => some (VNode.mk "div" [] [] "" none ""))
      { instances := [], initialized := ["__root__"], activeKeys := [],
        currentComponent := some ⟨2, false, false, true, false⟩,
        currentKey := "B",
        prevVDOM := some (VNode.mk "div" [] [] "" none "A"),
        vdomCache := [] } =
    .ok ({ instances := [], initialized := [], activeKeys := [],
           currentComponent := some ⟨2, false, false, true, false⟩,
           currentKey := "B",
           prevVDOM := some (VNode.mk "div" [] [] "" none "B"),
           vdomCache := [(2, VNode.mk "div" [] [] "" none "B")] },
         [REvent.renderCall 2, REvent.clearMount, REvent.renderFresh,
          REvent.unmountCall 2 "__root__"]) := rfl

/-- Claim C3, counterexample.  The claim asserts that a scoped re-render
for an owner with no retained previous tree returns a reportable error.  At
the explicit input below (owner instance 3, empty VDOM cache, a render
function producing a div) the call returns no error — the error component
is `none` — and instead performs a full fresh render (so it is not a silent
no-op either). -/
theorem C3_counterexample :
    (reRenderSlot (fun _ => some (VNode.mk "div" [] [] "" none ""))
      { instances := [], initialized := [], activeKeys := [],
        currentComponent := none, currentKey := "",
        prevVDOM := none, vdomCache := [] }
      (some ⟨3, false, false, false, false⟩)).2.2 = none ∧
    (reRenderSlot (fun _ => some (VNode.mk "div" [] [] "" none ""))
      { instances := [], initialized := [], activeKeys := [],
        currentComponent := none, currentKey := "",
        prevVDOM := none, vdomCache := [] }
      (some ⟨3, false, false, false, false⟩)).2.1 =
      [REvent.renderCall 3, REvent.renderFresh] :=
  ⟨rfl, rfl⟩

/-- Claim C3, amended.  Requesting a scoped re-render for an owner with no
retained previous tree is never a silent no-op, but it does not return an
error either: it falls back to a full render — materializing into the mount
point, caching the produced tree for the owner and retaining it as the
root's previous tree — and returns success.  An error value is returned
only when the owner is nil or when the owner's render function produces no
tree. -/
theorem C3_theorem (render : Comp → Option VNode) (s : RState) (c : Comp)
    (hcache : assocFind s.vdomCache c.id = none) :
    (∀ v, render c = some v →
      reRenderSlot render s (some c) =
        ({ s with vdomCache := assocSet s.vdomCache c.id v, prevVDOM := some v },
         [REvent.renderCall c.id, REvent.renderFresh], none)) ∧
    (render c = none →
      reRenderSlot render s (some c) =
        (s, [REvent.renderCall c.id], some SlotErr.nilRenderResult)) ∧
    reRenderSlot render s none = (s, [], some SlotErr.nilSlotParent) := by
  refine ⟨?_, ?_, rfl⟩
  · intro v hv
    simp [reRenderSlot, hcache, reRenderFull, hv]
  · intro hv
    simp [reRenderSlot, hcache, reRenderFull, hv]

/-- Claim C3, witness for the amended theorem at a concrete input: owner
instance 3 with an empty VDOM cache and a render function producing a
div. -/
theorem C3_witness :
    assocFind ([] : List (Nat × VNode)) 3 = none ∧
    ((∀ v, (fun (_ : Comp) => some (VNode.mk "div" [] [] "" none ""))
          (⟨3, false, false, false, false⟩ : Comp) = some v →
      reRenderSlot (fun _ => some (VNode.mk "div" [] [] "" none ""))
        { instances := [], initialized := [], activeKeys := [],
          currentComponent := none, currentKey := "",
          prevVDOM := none, vdomCache := [] }
        (some ⟨3, false, false, false, false⟩) =
        ({ instances := [], initialized := [], activeKeys := [],
           currentComponent := none, currentKey := "",
           prevVDOM := some v,
           vdomCache := assocSet [] 3 v },
         [REvent.renderCall 3, REvent.renderFresh], none)) ∧
    ((fun (_ : Comp) => some (VNode.mk "div" [] [] "" none ""))
        (⟨3, false, false, false, false⟩ : Comp) = none →
      reRenderSlot (fun _ => some (VNode.mk "div" [] [] "" none ""))
        { instances := [], initialized := [], activeKeys := [],
          currentComponent := none, currentKey := "",
          prevVDOM := none, vdomCache := [] }
        (some ⟨3, false, false, false, false⟩) =
        ({ instances := [], initialized := [], activeKeys := [],
           currentComponent := none, currentKey := "",
           prevVDOM := none, vdomCache := [] },
         [REvent.renderCall 3], some SlotErr.nilRenderResult)) ∧
    reRenderSlot (fun _ => some (VNode.mk "div" [] [] "" none ""))
      { instances := [], initialized := [], activeKeys := [],
        currentComponent := none, currentKey := "",
        prevVDOM := none, vdomCache := [] } none =
      ({ instances := [], initialized := [], activeKeys := [],
         currentComponent := none, currentKey := "",
         prevVDOM := none, vdomCache := [] }, [], some SlotErr.nilSlotParent)) :=
  ⟨rfl, C3_theorem (fun _ => some (VNode.mk "div" [] [] "" none ""))
    { instances := [], initialized := [], activeKeys := [],
      currentComponent := none, currentKey := "",
      prevVDOM := none, vdomCache := [] }
    ⟨3, false, false, false, false⟩ rfl⟩

/-- Claim C4, divergence evaluation.  The claim asserts that a root render
pass without an active root component is logged and abandoned without
crashing.  In the source, the guarded lifecycle block checks
`r.currentComponent != nil`, but line 102 then dereferences
`r.currentComponent` unconditionally (`r.currentComponent.Render(r)`): with
no root set this is a nil-interface method call, which panics.  The model
evaluates that pass to the panic outcome. -/
theorem C4_theorem :
    renderRoot (fun _ => some (VNode.mk "div" [] [] "" none ""))
      { instances := [], initialized := [], activeKeys := [],
        currentComponent := none, currentKey := "",
        prevVDOM := none, vdomCache := [] } =
      .error GoPanic.nilRootRender := rfl

/-- Claim C8.  An instance whose registry key is active (resolved) in render
passes 1..k and is not resolved in pass k+1 receives exactly one
unmount-hook invocation if it implements the unmount capability (and none
otherwise), during pass k+1's cleanup phase — which runs after mutation
application — never during any resolution phase and never in passes 1..k;
in the same cleanup its registry entry is purged: both the instance mapping
and the initialization flag for its key are gone afterwards. -/
theorem C8_theorem (s0 : RState) (K : String)
    (passes : List (List ChildCall)) (lastCalls : List ChildCall)
    (hnd : nodupKeys s0.instances)
    (hres : ∀ c ∈ passes, resolvesKey c K = true)
    (hne : passes ≠ [])
    (hlast : resolvesKey lastCalls K = false) :
    (∀ entry ∈ (runPasses passes s0).2,
      countUnmountFor entry.1 K = 0 ∧ countUnmountFor entry.2.1 K = 0) ∧
    countUnmountFor (renderPass lastCalls (runPasses passes s0).1).2.1 K = 0 ∧
    (∃ I, assocFind (runPasses passes s0).1.instances K = some I ∧
      countUnmountFor (renderPass lastCalls (runPasses passes s0).1).2.2.1 K =
        (if I.unmountable = true then 1 else 0)) ∧
    assocFind (renderPass lastCalls
      (runPasses passes s0).1).1.instances K = none ∧
    (renderPass lastCalls
      (runPasses passes s0).1).1.initialized.contains K = false := by
  have hreg := runPasses_reg passes s0 K hnd hres
  obtain ⟨I, hI⟩ := Option.isSome_iff_exists.mp (hreg.2.2 (Or.inl hne))
  have hun := renderPass_unresolved lastCalls (runPasses passes s0).1 K I
    hreg.1 hI hlast
  exact ⟨hreg.2.1, hun.1, ⟨I, hI, hun.2.1⟩, hun.2.2.1, hun.2.2.2⟩

/-- Claim C8, witness at a concrete input: one pass resolving the composite
key "child" with an unmountable candidate (identity 7), followed by a pass
that does not resolve it. -/
theorem C8_witness :
    nodupKeys (RState.instances
      { instances := [], initialized := [], activeKeys := [],
        currentComponent := none, currentKey := "",
        prevVDOM := none, vdomCache := [] }) ∧
    (∀ c ∈ [[ChildCall.mk [] "child" ⟨7, false, false, true, false⟩]],
      resolvesKey c "child" = true) ∧
    ([[ChildCall.mk [] "child" ⟨7, false, false, true, false⟩]] :
      List (List ChildCall)) ≠ [] ∧
    resolvesKey [] "child" = false ∧
    ((∀ entry ∈ (runPasses [[ChildCall.mk [] "child" ⟨7, false, false, true, false⟩]]
        { instances := [], initialized := [], activeKeys := [],
          currentComponent := none, currentKey := "",
          prevVDOM := none, vdomCache := [] }).2,
      countUnmountFor entry.1 "child" = 0 ∧ countUnmountFor entry.2.1 "child" = 0) ∧
    countUnmountFor (renderPass []
      (runPasses [[ChildCall.mk [] "child" ⟨7, false, false, true, false⟩]]
        { instances := [], initialized := [], activeKeys := [],
          currentComponent := none, currentKey := "",
          prevVDOM := none, vdomCache := [] }).1).2.1 "child" = 0 ∧
    (∃ I, assocFind (runPasses
        [[ChildCall.mk [] "child" ⟨7, false, false, true, false⟩]]
        { instances := [], initialized := [], activeKeys := [],
          currentComponent := none, currentKey := "",
          prevVDOM := none, vdomCache := [] }).1.instances "child" = some I ∧
      countUnmountFor (renderPass []
        (runPasses [[ChildCall.mk [] "child" ⟨7, false, false, true, false⟩]]
          { instances := [], initialized := [], activeKeys := [],
            currentComponent := none, currentKey := "",
            prevVDOM := none, vdomCache := [] }).1).2.2.1 "child" =
        (if I.unmountable = true then 1 else 0)) ∧
    assocFind (renderPass []
      (runPasses [[ChildCall.mk [] "child" ⟨7, false, false, true, false⟩]]
        { instances := [], initialized := [], activeKeys := [],
          currentComponent := none, currentKey := "",
          prevVDOM := none, vdomCache := [] }).1).1.instances "child" = none ∧
    (renderPass []
      (runPasses [[ChildCall.mk [] "child" ⟨7, false, false, true, false⟩]]
        { instances := [], initialized := [], activeKeys := [],
          currentComponent := none, currentKey := "",
          prevVDOM := none, vdomCache := [] }).1).1.initialized.contains "child" =
      false) :=
  ⟨by decide, by decide, by simp, rfl,
    C8_theorem
      { instances := [], initialized := [], activeKeys := [],
        currentComponent := none, currentKey := "",
        prevVDOM := none, vdomCache := [] }
      "child"
      [[ChildCall.mk [] "child" ⟨7, false, false, true, false⟩]] []
      (by decide) (by decide) (by simp) rfl⟩

/-- Claim C9.  Resolving the same composite key (rendering-parent identity,
colon, local key) across consecutive render passes with the key active in
every pass yields the identical stored instance object on every resolution:
a first resolution of an unregistered key stores and returns the candidate;
every later resolution returns the stored instance unchanged, discarding
the fresh candidate after copying its props onto the retained instance when
it implements prop-sync (the `applyPropsCall` event, emitted exactly when
the stored instance supports it); across any number of consecutive passes
that all resolve the key, the stored instance never changes and every
resolution result equals it; and the registry always holds at most one live
instance per composite key (key lists stay duplicate-free). -/
theorem C9_theorem (K : String) :
    (∀ (s : RState) (stack : List Comp) (key : String) (cand : Comp),
      globalKeyOf stack key = K → assocFind s.instances K = none →
      (renderChild stack key cand s).2.2 = cand ∧
      assocFind (renderChild stack key cand s).1.instances K = some cand) ∧
    (∀ (s : RState) (stack : List Comp) (key : String) (cand I : Comp),
      globalKeyOf stack key = K → assocFind s.instances K = some I →
      (renderChild stack key cand s).2.2 = I ∧
      (renderChild stack key cand s).1.instances = s.instances ∧
      (renderChild stack key cand s).2.1 =
        (if I.propUpdater = true then [REvent.applyPropsCall I.id cand.id] else []) ++
        (if I.paramReceiver = true then [REvent.paramsCall I.id K] else []) ++
        [REvent.renderCall I.id]) ∧
    (∀ (passes : List (List ChildCall)) (s : RState) (I : Comp),
      nodupKeys s.instances → assocFind s.instances K = some I →
      (∀ c ∈ passes, resolvesKey c K = true) →
      assocFind (runPasses passes s).1.instances K = some I ∧
      nodupKeys (runPasses passes s).1.instances ∧
      (∀ (pi : Nat) (calls : List ChildCall) (j : Nat) (cc : ChildCall),
        passes[pi]? = some calls → calls[j]? = some cc →
        globalKeyOf cc.stack cc.key = K →
        ∃ entry, (runPasses passes s).2[pi]? = some entry ∧
          entry.2.2[j]? = some I)) := by
  refine ⟨?_, ?_, ?_⟩
  · intro s stack key cand hk h
    have h2 : assocFind s.instances (globalKeyOf stack key) = none := by
      rw [hk]
      exact h
    rw [renderChild_fresh stack key cand s h2]
    refine ⟨rfl, ?_⟩
    simp only
    rw [← hk, assocFind_append_of_none _ _ _ h2]
    simp [assocFind_cons]
  · intro s stack key cand I hk h
    have h2 : assocFind s.instances (globalKeyOf stack key) = some I := by
      rw [hk]
      exact h
    rw [renderChild_reuse stack key cand s I h2]
    exact ⟨rfl, rfl, by rw [hk]⟩
  · intro passes s I hnd hI hres
    exact runPasses_stable passes s K I hnd hI hres

/-- Claim C9, witness at a concrete input: the key "child" stored with
instance 7 (a prop-updater), resolved again over one further pass with a
fresh candidate (identity 9). -/
theorem C9_witness :
    nodupKeys [("child", (⟨7, false, false, false, true⟩ : Comp))] ∧
    assocFind [("child", (⟨7, false, false, false, true⟩ : Comp))] "child" =
      some ⟨7, false, false, false, true⟩ ∧
    (∀ c ∈ [[ChildCall.mk [] "child" ⟨9, false, false, false, false⟩]],
      resolvesKey c "child" = true) ∧
    (assocFind (runPasses [[ChildCall.mk [] "child" ⟨9, false, false, false, false⟩]]
        { instances := [("child", ⟨7, false, false, false, true⟩)],
          initialized := ["child"], activeKeys := [],
          currentComponent := none, currentKey := "",
          prevVDOM := none, vdomCache := [] }).1.instances "child" =
      some ⟨7, false, false, false, true⟩ ∧
    nodupKeys (runPasses [[ChildCall.mk [] "child" ⟨9, false, false, false, false⟩]]
        { instances := [("child", ⟨7, false, false, false, true⟩)],
          initialized := ["child"], activeKeys := [],
          currentComponent := none, currentKey := "",
          prevVDOM := none, vdomCache := [] }).1.instances ∧
    (∀ (pi : Nat) (calls : List ChildCall) (j : Nat) (cc : ChildCall),
      ([[ChildCall.mk [] "child" ⟨9, false, false, false, false⟩]] :
        List (List ChildCall))[pi]? = some calls →
      calls[j]? = some cc →
      globalKeyOf cc.stack cc.key = "child" →
      ∃ entry, (runPasses [[ChildCall.mk [] "child" ⟨9, false, false, false, false⟩]]
          { instances := [("child", ⟨7, false, false, false, true⟩)],
            initialized := ["child"], activeKeys := [],
            currentComponent := none, currentKey := "",
            prevVDOM := none, vdomCache := [] }).2[pi]? = some entry ∧
        entry.2.2[j]? = some ⟨7, false, false, false, true⟩)) :=
  ⟨by decide, rfl, by decide,
    ( C9_theorem "child").2.2
      [[ChildCall.mk [] "child" ⟨9, false, false, false, false⟩]]
      { instances := [("child", ⟨7, false, false, false, true⟩)],
        initialized := ["child"], activeKeys := [],
        currentComponent := none, currentKey := "",
        prevVDOM := none, vdomCache := [] }
      ⟨7, false, false, false, true⟩ (by decide) rfl (by decide)⟩

end Nojs
